import Mathlib

/-!
Verification of the check-protocol engine of bufplugin-go.

This file gives a shallow embedding, in Lean, of the request/response data
model, the rule/category registry validation, the response collector, the
pagination protocol and the multi-client fan-out logic of the `check`
package, and proves (or refutes) the specified properties about them.

Conventions used throughout the embedding:

* Go machine integers are modelled as `Int` or `Nat` (no overflow is
  relevant to any embedded function).
* Fallible Go functions returning `(T, error)` are modelled as
  `Except Err T`; Go `error` values are modelled by the inductive `Err`,
  with one constructor per distinct error identity the claims care about.
* Go maps are modelled as association lists built in insertion order;
  lookups mirror the Go semantics at every call site (see the comments on
  the individual definitions).
* Go byte slices are modelled as `List Nat`.
* Sequential semantics: the Go code guards shared state with locks; the
  embedding models the serialized (sequential) behaviour those locks
  enforce.
-/

namespace Bufplugin

/-- Bytes models a Go byte slice value. -/
abbrev Bytes := List Nat

/-- Err models the identity of the Go error values produced by the check
package.  `joined` models `errors.Join` over an accumulated error list. -/
inductive Err where
  | cannotReuseResponseWriter : Err
  | cannotUseDescriptorWithFileNameOrSourcePath : Err
  | cannotUseAgainstDescriptorWithFileNameOrSourcePath : Err
  | cannotUsePathWithoutFileName : Err
  | cannotUseAgainstPathWithoutFileName : Err
  | unknownFile : String → Err
  | invalidArgument : String → Err
  | duplicateRuleIDs : List String → Err
  | duplicateCategoryIDs : List String → Err
  | validateRuleSpecError : String → Err
  | validateCategorySpecError : String → Err
  | optionValidateError : String → Err
  | joined : List Err → Err
  | other : String → Err

/-- The compare-combining helper of the check package: returns the first
non-zero compare value, or zero otherwise (translated from the source
function joinCompares). -/
def joinCompares : List Int → Int
  | [] => 0
  | c :: rest => if c ≠ 0 then c else joinCompares rest

/-- Integer comparison helper (translated from the source function
intCompare). -/
def intCompare (one : Int) (two : Int) : Int :=
  if one < two then -1 else if one > two then 1 else 0

/-- String comparison as used by Go (strings.Compare / lexical compare on
the linear order of strings). -/
def stringCompare (a b : String) : Int :=
  if a < b then -1 else if b < a then 1 else 0

/-- Lexicographic comparison of source paths (Go proto source paths are
int32 slices; modelled as lists of integers). -/
def sourcePathCompare : List Int → List Int → Int
  | [], [] => 0
  | [], _ :: _ => -1
  | _ :: _, [] => 1
  | a :: as, b :: bs => if a < b then -1 else if b < a then 1 else sourcePathCompare as bs

/-- IsCmp captures the properties a three-way comparison function needs for
its induced weak order to be total and transitive: antisymmetry of the
compare value, substitutivity of compare-equal elements, and transitivity
of the nonpositive-compare relation. -/
def IsCmp {α : Type} (f : α → α → Int) : Prop :=
  (∀ a b, f b a = -(f a b)) ∧
  (∀ a b c, f a b = 0 → f a c = f b c) ∧
  (∀ a b c, f a b ≤ 0 → f b c ≤ 0 → f a c ≤ 0)

/-- Combination of two comparison functions: the first one wins unless it
ties (this is joinCompares specialized to two compares). -/
def combineCompare {α : Type} (f g : α → α → Int) (a b : α) : Int :=
  if f a b = 0 then g a b else f a b

/-- Lift of a comparison on a type to options, treating a missing value as
minimal (the spec: missing Location and AgainstLocation sort as minimal). -/
def optCompare {α : Type} (f : α → α → Int) : Option α → Option α → Int
  | none, none => 0
  | none, some _ => -1
  | some _, none => 1
  | some a, some b => f a b

/-- File models the check package File: its identity is its path (the
protoreflect file descriptor path, called file name), plus the is-import
flag.  The descriptor payload itself is external to this core and is not
needed by any embedded operation beyond the path. -/
structure File where
  fileName : String
  isImport : Bool
deriving DecidableEq, Repr

/-- Location models a resolved annotation location: the file name plus the
structural source path used for ordering.  Line/column/comment data is
resolved lazily from the descriptor library (an external collaborator) and
plays no role in the embedded logic. -/
structure Location where
  fileName : String
  sourcePath : List Int
deriving DecidableEq, Repr

/-- Annotation models a single reported finding: rule ID, message, optional
location, optional against location. -/
structure Annotation where
  ruleID : String
  message : String
  location : Option Location
  againstLocation : Option Location
deriving DecidableEq, Repr

/-- Modelled from the spec: the comparator on two Locations orders by file
name and then by structural path ("ID, then location file name, then
location path").  The source function compareAnnotations is not part of the
provided sources; only its callers are. -/
def compareLocations (l1 l2 : Location) : Int :=
  joinCompares [stringCompare l1.fileName l2.fileName, sourcePathCompare l1.sourcePath l2.sourcePath]

/-- Modelled from the spec: annotations are totally ordered by rule ID,
then location, then against location, "treating missing Location and
AgainstLocation as minimal".  The source function compareAnnotations is not
part of the provided sources; only its callers are. -/
def compareAnnotations (a1 a2 : Annotation) : Int :=
  joinCompares
    [stringCompare a1.ruleID a2.ruleID,
     optCompare compareLocations a1.location a2.location,
     optCompare compareLocations a1.againstLocation a2.againstLocation]

/-- The nonstrict order induced by compareAnnotations, used to state
sortedness of responses. -/
def annotationLE (a1 a2 : Annotation) : Prop :=
  compareAnnotations a1 a2 ≤ 0

instance : DecidableRel annotationLE := fun a b =>
  inferInstanceAs (Decidable (compareAnnotations a b ≤ 0))

/-- Response models the check response: a list of annotations, sorted once
at construction. -/
structure Response where
  annotations : List Annotation
deriving DecidableEq, Repr

/-- The Response constructor (translated from the source function
newResponse): sorts the annotations with the annotation comparator.  The Go
function signature also carries an always-nil error, dropped here. -/
def newResponse (annotations : List Annotation) : Response :=
  ⟨List.insertionSort annotationLE annotations⟩

/-- RuleType models the Go RuleType enumeration.  Modelled from the spec:
the type tag is Lint or Breaking; the Go constants RuleTypeLint = 1 and
RuleTypeBreaking = 2 are the keys of ruleTypeToProtoRuleType (the defining
file is not part of the provided sources). -/
abbrev RuleType := Nat

/-- RuleTypeLint models the Go constant of the same name. -/
def RuleTypeLint : RuleType := 1

/-- RuleTypeBreaking models the Go constant of the same name. -/
def RuleTypeBreaking : RuleType := 2

/-- The key set of the Go map ruleTypeToProtoRuleType, used by validation
to check that a rule type is known. -/
def ruleTypeToProtoRuleTypeKeys : List RuleType := [RuleTypeLint, RuleTypeBreaking]

/-- Rule models a single lint or breaking change rule as returned by
ListRules (translated from the source struct rule; the category objects are
represented by their IDs, which is all the embedded logic inspects). -/
structure Rule where
  id : String
  categoryIDs : List String
  isDefault : Bool
  purpose : String
  ruleType : RuleType
  deprecated : Bool
  replacementIDs : List String
deriving DecidableEq, Repr

/-- The nonstrict order on rules induced by comparing rule IDs.  Modelled
from the spec: CompareRules is not part of the provided sources; the spec
says rule listings are sorted by rule ID. -/
def ruleLE (r1 r2 : Rule) : Prop :=
  r1.id ≤ r2.id

instance : DecidableRel ruleLE := fun r1 r2 =>
  inferInstanceAs (Decidable (r1.id ≤ r2.id))

instance : IsTotal Rule ruleLE :=
  ⟨fun r1 r2 => le_total r1.id r2.id⟩

instance : IsTrans Rule ruleLE :=
  ⟨fun _ _ _ h1 h2 => le_trans h1 h2⟩

/-- Sorting of rules by rule ID (translated from the source function
sortRules; its comparator CompareRules is modelled from the spec as
comparison by rule ID). -/
def sortRules (rules : List Rule) : List Rule :=
  List.insertionSort ruleLE rules

/-- Sorting of strings (Go sort.Strings). -/
def sortStrings (l : List String) : List String :=
  List.insertionSort (fun a b : String => a ≤ b) l

/-- The duplicated IDs of a list: the IDs occurring more than once, each
listed once, sorted (translated from the counting loops of
validateNoDuplicateRuleIDs and friends; the Go map iteration order is
unobservable because the result is sorted). -/
def duplicatedIDs (ids : List String) : List String :=
  sortStrings (ids.dedup.filter (fun id => 1 < ids.count id))

/-- Translated from the source function validateNoDuplicateRuleIDs. -/
def validateNoDuplicateRuleIDs (ids : List String) : Except Err Unit :=
  if duplicatedIDs ids = [] then .ok () else .error (.duplicateRuleIDs (duplicatedIDs ids))

/-- Translated from the source function validateNoDuplicateCategoryIDs. -/
def validateNoDuplicateCategoryIDs (ids : List String) : Except Err Unit :=
  if duplicatedIDs ids = [] then .ok () else .error (.duplicateCategoryIDs (duplicatedIDs ids))

/-- Translated from the source function validateNoDuplicateRules. -/
def validateNoDuplicateRules (rules : List Rule) : Except Err Unit :=
  validateNoDuplicateRuleIDs (rules.map (fun r => r.id))

/-- RuleHandler is opaque to everything embedded here: the only inspection
the embedded code performs is the nil check of validation, so a handler is
modelled as an optional token (none models a nil Go interface value). -/
abbrev RuleHandlerSlot := Option Unit

/-- RuleSpec models the server-side spec for a rule (translated from the
source struct RuleSpec). -/
structure RuleSpec where
  id : String
  categoryIDs : List String
  isDefault : Bool
  purpose : String
  ruleType : RuleType
  deprecated : Bool
  replacementIDs : List String
  handler : RuleHandlerSlot
deriving DecidableEq, Repr

/-- CategorySpec models the server-side spec for a category (translated
from the source struct CategorySpec). -/
structure CategorySpec where
  id : String
  purpose : String
  deprecated : Bool
  replacementIDs : List String
deriving DecidableEq, Repr

/-- Lookup in a Go map modelled as an association list; the build functions
below construct the list so that a first-match lookup agrees with the Go
map at every (reachable) call site. -/
def mapLookup {α : Type} (m : List (String × α)) (key : String) : Option α :=
  (m.find? (fun p => p.1 == key)).map (fun p => p.2)

/-- The ruleIDToRuleSpec map of validateRuleSpecs: the Go code walks the
specs in order, rejecting an empty ID and inserting into the map.  A later
duplicate insertion would overwrite an earlier one in Go, while this list
keeps the earlier one; the two lookups differ only when IDs are duplicated,
and validateRuleSpecs has already failed before the map is used in that
case. -/
def buildRuleIDToRuleSpec : List RuleSpec → Except Err (List (String × RuleSpec))
  | [] => .ok []
  | spec :: rest =>
    if spec.id = "" then .error (.validateRuleSpecError "ID is empty")
    else
      match buildRuleIDToRuleSpec rest with
      | .error e => .error e
      | .ok m => .ok ((spec.id, spec) :: m)

/-- The category-reference loop of validateRuleSpec: errors on the first
category ID with no matching category. -/
def checkRuleCategoryIDs (categoryIDMap : List String) : List String → Except Err Unit
  | [] => .ok ()
  | categoryID :: rest =>
    if categoryIDMap.contains categoryID then checkRuleCategoryIDs categoryIDMap rest
    else .error (.validateRuleSpecError ("no category for ID " ++ categoryID))

/-- The replacement-ID loop of validateRuleSpec: each replacement must
resolve to a known rule spec that is itself not deprecated. -/
def checkRuleReplacementIDs (ruleIDToRuleSpec : List (String × RuleSpec)) (specID : String) :
    List String → Except Err Unit
  | [] => .ok ()
  | replacementID :: rest =>
    match mapLookup ruleIDToRuleSpec replacementID with
    | none =>
      .error (.validateRuleSpecError ("ID " ++ specID ++ " specified replacement ID " ++ replacementID ++ " which was not found"))
    | some replacementRuleSpec =>
      if replacementRuleSpec.deprecated then
        .error (.validateRuleSpecError ("Deprecated ID " ++ specID ++ " specified replacement ID " ++ replacementID ++ " which also deprecated"))
      else checkRuleReplacementIDs ruleIDToRuleSpec specID rest

/-- Translated from the source function validateRuleSpec (the protovalidate
argument is unused in the source and dropped here; the trailing structural
validation is permanently disabled in the source and therefore absent). -/
def validateRuleSpec (ruleSpec : RuleSpec) (ruleIDToRuleSpec : List (String × RuleSpec))
    (categoryIDMap : List String) : Except Err Unit :=
  match checkRuleCategoryIDs categoryIDMap ruleSpec.categoryIDs with
  | .error e => .error e
  | .ok _ =>
    if ruleSpec.purpose = "" then .error (.validateRuleSpecError ("Purpose is not set for ID " ++ ruleSpec.id))
    else if ruleSpec.ruleType = 0 then .error (.validateRuleSpecError ("Type is not set for ID " ++ ruleSpec.id))
    else if ¬ ruleTypeToProtoRuleTypeKeys.contains ruleSpec.ruleType then
      .error (.validateRuleSpecError "Type is unknown")
    else if ruleSpec.handler = none then
      .error (.validateRuleSpecError ("Handler is not set for ID " ++ ruleSpec.id))
    else if ruleSpec.replacementIDs ≠ [] ∧ ruleSpec.deprecated = false then
      .error (.validateRuleSpecError ("ID " ++ ruleSpec.id ++ " had ReplacementIDs but Deprecated was false"))
    else checkRuleReplacementIDs ruleIDToRuleSpec ruleSpec.id ruleSpec.replacementIDs

/-- The per-spec loop of validateRuleSpecs. -/
def validateRuleSpecsLoop (ruleIDToRuleSpec : List (String × RuleSpec)) (categoryIDMap : List String) :
    List RuleSpec → Except Err Unit
  | [] => .ok ()
  | spec :: rest =>
    match validateRuleSpec spec ruleIDToRuleSpec categoryIDMap with
    | .error e => .error e
    | .ok _ => validateRuleSpecsLoop ruleIDToRuleSpec categoryIDMap rest

/-- Translated from the source function validateRuleSpecs: duplicate-ID
check, empty-ID check with map construction, then per-spec validation. -/
def validateRuleSpecs (ruleSpecs : List RuleSpec) (categoryIDMap : List String) : Except Err Unit :=
  match validateNoDuplicateRuleIDs (ruleSpecs.map (fun s => s.id)) with
  | .error e => .error e
  | .ok _ =>
    match buildRuleIDToRuleSpec ruleSpecs with
    | .error e => .error e
    | .ok ruleIDToRuleSpec => validateRuleSpecsLoop ruleIDToRuleSpec categoryIDMap ruleSpecs

/-- The categoryIDToCategorySpec map of validateCategorySpecs, built the
same way as the rule map (see buildRuleIDToRuleSpec for the duplicate-key
caveat). -/
def buildCategoryIDToCategorySpec : List CategorySpec → Except Err (List (String × CategorySpec))
  | [] => .ok []
  | spec :: rest =>
    if spec.id = "" then .error (.validateCategorySpecError "ID is empty")
    else
      match buildCategoryIDToCategorySpec rest with
      | .error e => .error e
      | .ok m => .ok ((spec.id, spec) :: m)

/-- The replacement-ID loop of validateCategorySpec. -/
def checkCategoryReplacementIDs (categoryIDToCategorySpec : List (String × CategorySpec)) (specID : String) :
    List String → Except Err Unit
  | [] => .ok ()
  | replacementID :: rest =>
    match mapLookup categoryIDToCategorySpec replacementID with
    | none =>
      .error (.validateCategorySpecError ("CategorySpec " ++ specID ++ " specified replacement ID " ++ replacementID ++ " which was not found"))
    | some replacementCategorySpec =>
      if replacementCategorySpec.deprecated then
        .error (.validateCategorySpecError ("Deprecated CategorySpec " ++ specID ++ " specified replacement ID " ++ replacementID ++ " which also deprecated"))
      else checkCategoryReplacementIDs categoryIDToCategorySpec specID rest

/-- Translated from the source function validateCategorySpec. -/
def validateCategorySpec (categorySpec : CategorySpec)
    (categoryIDToCategorySpec : List (String × CategorySpec)) : Except Err Unit :=
  if categorySpec.purpose = "" then
    .error (.validateCategorySpecError ("Purpose is not set for ID " ++ categorySpec.id))
  else if categorySpec.replacementIDs ≠ [] ∧ categorySpec.deprecated = false then
    .error (.validateCategorySpecError ("ReplacementIDs had values but Deprecated was false"))
  else checkCategoryReplacementIDs categoryIDToCategorySpec categorySpec.id categorySpec.replacementIDs

/-- The per-spec loop of validateCategorySpecs, including the orphan check
(every category must be referenced by some rule). -/
def validateCategorySpecsLoop (categoryIDToCategorySpec : List (String × CategorySpec))
    (categoryIDForRulesMap : List String) : List CategorySpec → Except Err Unit
  | [] => .ok ()
  | spec :: rest =>
    match validateCategorySpec spec categoryIDToCategorySpec with
    | .error e => .error e
    | .ok _ =>
      if categoryIDForRulesMap.contains spec.id then
        validateCategorySpecsLoop categoryIDToCategorySpec categoryIDForRulesMap rest
      else .error (.validateCategorySpecError ("no Rule has a Category ID of " ++ spec.id))

/-- Translated from the source function validateCategorySpecs. -/
def validateCategorySpecs (categorySpecs : List CategorySpec) (ruleSpecs : List RuleSpec) :
    Except Err Unit :=
  match validateNoDuplicateCategoryIDs (categorySpecs.map (fun s => s.id)) with
  | .error e => .error e
  | .ok _ =>
    match buildCategoryIDToCategorySpec categorySpecs with
    | .error e => .error e
    | .ok categoryIDToCategorySpec =>
      validateCategorySpecsLoop categoryIDToCategorySpec
        (ruleSpecs.flatMap (fun s => s.categoryIDs)) categorySpecs

/-- Options models the validated key-to-value map of a request (translated
from the source struct options; the map is kept as the association list of
its entries). -/
structure Options where
  keyToValue : List (String × Bytes)
deriving DecidableEq, Repr

/-- Translated from the source function validateKeyToValue: every key and
every value must be non-empty. -/
def validateKeyToValue : List (String × Bytes) → Except Err Unit
  | [] => .ok ()
  | (key, value) :: rest =>
    if key = "" then .error (.optionValidateError "option key is empty")
    else if value = [] then .error (.optionValidateError ("option value is empty for key " ++ key))
    else validateKeyToValue rest

/-- Translated from the source function newOptions. -/
def newOptions (keyToValue : List (String × Bytes)) : Except Err Options :=
  match validateKeyToValue keyToValue with
  | .error e => .error e
  | .ok _ => .ok ⟨keyToValue⟩

/-- Request models the input of a Check call (translated from the source
struct request).  The ruleIDs field is sorted and duplicate-free by
construction. -/
structure Request where
  files : List File
  againstFiles : List File
  options : Options
  ruleIDs : List String
deriving DecidableEq, Repr

/-- Translated from the source function newRequest: rule IDs are collected
into a set and sorted (the Go code inserts them into a map and sorts the
key list), and the options map is validated. -/
def newRequest (files : List File) (againstFiles : List File)
    (keyToValue : List (String × Bytes)) (ruleIDs : List String) : Except Err Request :=
  match newOptions keyToValue with
  | .error e => .error e
  | .ok options =>
    .ok { files := files, againstFiles := againstFiles, options := options,
          ruleIDs := sortStrings ruleIDs.dedup }

/-- The page size constant for chunking rule IDs of a request (translated
from the source constant checkRuleIDPageSize). -/
def checkRuleIDPageSize : Nat := 250

/-- CheckRequest models the provider-facing proto CheckRequest.  The proto
conversions of files and options are structure-preserving repackagings; the
embedding carries the File and Options values themselves. -/
structure CheckRequest where
  files : List File
  againstFiles : List File
  options : Options
  ruleIds : List String
deriving DecidableEq, Repr

/-- The chunking loop of toProtos: successive slices of at most
checkRuleIDPageSize rule IDs (translated from the index loop of the source
function toProtos). -/
def chunkRuleIDs : List String → List (List String)
  | [] => []
  | a :: rest =>
    (a :: rest).take checkRuleIDPageSize :: chunkRuleIDs ((a :: rest).drop checkRuleIDPageSize)
termination_by l => l.length
decreasing_by
  simp only [List.length_drop, List.length_cons]
  unfold checkRuleIDPageSize
  omega

/-- The CheckRequest built for one chunk of rule IDs: it carries the
request's files, against files and options unchanged (the record the body
of the toProtos loop constructs). -/
def checkRequestForChunk (r : Request) (chunk : List String) : CheckRequest :=
  { files := r.files, againstFiles := r.againstFiles, options := r.options, ruleIds := chunk }

/-- Translated from the source method toProtos of request: a request with
no rule IDs produces one CheckRequest with no rule IDs; otherwise one
CheckRequest per chunk of at most 250 rule IDs. -/
def Request.toProtos (r : Request) : List CheckRequest :=
  if r.ruleIDs = [] then [checkRequestForChunk r []]
  else (chunkRuleIDs r.ruleIDs).map (checkRequestForChunk r)

/-- Descriptor models the protoreflect descriptor handed to WithDescriptor:
the embedded logic only consults its parent file path (possibly absent) and
its source path. -/
structure Descriptor where
  parentFilePath : Option String
  sourcePath : List Int
deriving DecidableEq, Repr

/-- AddAnnotationOptions models the option record accumulated by the
With... option functions (translated from the source struct
addAnnotationOptions; zero values of the Go struct are the defaults). -/
structure AddAnnotationOptions where
  message : String := ""
  descriptor : Option Descriptor := none
  againstDescriptor : Option Descriptor := none
  fileName : String := ""
  sourcePath : List Int := []
  againstFileName : String := ""
  againstSourcePath : List Int := []
deriving DecidableEq, Repr

/-- Translated from the source function validateAddAnnotationOptions. -/
def validateAddAnnotationOptions (o : AddAnnotationOptions) : Except Err Unit :=
  if o.descriptor.isSome ∧ (o.fileName ≠ "" ∨ o.sourcePath ≠ []) then
    .error .cannotUseDescriptorWithFileNameOrSourcePath
  else if o.againstDescriptor.isSome ∧ (o.againstFileName ≠ "" ∨ o.againstSourcePath ≠ []) then
    .error .cannotUseAgainstDescriptorWithFileNameOrSourcePath
  else if o.fileName = "" ∧ o.sourcePath ≠ [] then
    .error .cannotUsePathWithoutFileName
  else if o.againstFileName = "" ∧ o.againstSourcePath ≠ [] then
    .error .cannotUseAgainstPathWithoutFileName
  else .ok ()

/-- Translated from the source function getLocationForAddAnnotationOptions:
resolve a location from a descriptor (rejecting files outside the request
file set) or from an explicit file name and source path. -/
def getLocationForAddAnnotationOptions (fileNameToFile : List (String × File))
    (descriptor : Option Descriptor) (fileName : String) (path : List Int) :
    Except Err (Option Location) :=
  match descriptor with
  | some d =>
    match d.parentFilePath with
    | some parentPath =>
      match mapLookup fileNameToFile parentPath with
      | none => .error (.unknownFile parentPath)
      | some _ => .ok (some { fileName := parentPath, sourcePath := d.sourcePath })
    | none => .ok none
  | none =>
    if fileName ≠ "" then
      match mapLookup fileNameToFile fileName with
      | none => .error (.unknownFile fileName)
      | some _ => .ok (some { fileName := fileName, sourcePath := path })
    else .ok none

/-- MultiResponseWriter models the response collector state: the file
lookup maps built from the request, the accumulated annotations, the
written flag, and the accumulated errors (translated from the source struct
multiResponseWriter; the mutex is replaced by the sequential semantics it
enforces). -/
structure MultiResponseWriter where
  fileNameToFile : List (String × File)
  againstFileNameToFile : List (String × File)
  annotations : List Annotation
  written : Bool
  errs : List Err

/-- The build loop of fileNameToFileForFiles: inserts each file keyed by
its file name, rejecting duplicates. -/
def fileNameToFileForFilesLoop (acc : List (String × File)) : List File → Except Err (List (String × File))
  | [] => .ok acc
  | file :: rest =>
    if (mapLookup acc file.fileName).isSome then
      .error (.other ("duplicate file name: " ++ file.fileName))
    else fileNameToFileForFilesLoop (acc ++ [(file.fileName, file)]) rest

/-- Translated from the source function fileNameToFileForFiles. -/
def fileNameToFileForFiles (files : List File) : Except Err (List (String × File)) :=
  fileNameToFileForFilesLoop [] files

/-- Translated from the source function newMultiResponseWriter. -/
def newMultiResponseWriter (request : Request) : Except Err MultiResponseWriter :=
  match fileNameToFileForFiles request.files with
  | .error e => .error e
  | .ok fileNameToFile =>
    match fileNameToFileForFiles request.againstFiles with
    | .error e => .error e
    | .ok againstFileNameToFile =>
      .ok { fileNameToFile := fileNameToFile, againstFileNameToFile := againstFileNameToFile,
            annotations := [], written := false, errs := [] }

/-- Translated from the source method addAnnotation of multiResponseWriter:
option validation failures, use-after-finalize, and location resolution
failures are recorded in the error list (never returned); on success the
new annotation is appended.  The Go signature returns nothing: the
embedding returns only the updated collector state. -/
def addAnnotation (m : MultiResponseWriter) (ruleID : String) (o : AddAnnotationOptions) :
    MultiResponseWriter :=
  match validateAddAnnotationOptions o with
  | .error e => { m with errs := m.errs ++ [e] }
  | .ok _ =>
    if m.written then { m with errs := m.errs ++ [.cannotReuseResponseWriter] }
    else
      match getLocationForAddAnnotationOptions m.fileNameToFile o.descriptor o.fileName o.sourcePath with
      | .error e => { m with errs := m.errs ++ [e] }
      | .ok location =>
        match getLocationForAddAnnotationOptions m.againstFileNameToFile o.againstDescriptor o.againstFileName o.againstSourcePath with
        | .error e => { m with errs := m.errs ++ [e] }
        | .ok againstLocation =>
          { m with annotations := m.annotations ++
              [{ ruleID := ruleID, message := o.message, location := location,
                 againstLocation := againstLocation }] }

/-- Translated from the source method toResponse of multiResponseWriter:
recorded errors are surfaced joined; a second finalize fails with the
cannot-reuse error; the first successful finalize marks the collector
written and returns the response built from the accumulated annotations. -/
def toResponse (m : MultiResponseWriter) : MultiResponseWriter × Except Err Response :=
  match m.errs with
  | _ :: _ => (m, .error (.joined m.errs))
  | [] =>
    if m.written then (m, .error .cannotReuseResponseWriter)
    else ({ m with written := true }, .ok (newResponse m.annotations))

/-- The default page size of the service handler (translated from the
source constant defaultPageSize). -/
def defaultPageSize : Nat := 250

/-- CheckServiceHandler models the provider-side handler state relevant to
listing: the rule specs in construction order.  The Go handler also keeps
id-to-spec and id-to-index maps derived from this list; under the
constructor's no-duplicate-ID invariant they coincide with first-match
searches over the list, which is how they are modelled. -/
structure CheckServiceHandler where
  ruleSpecs : List RuleSpec

/-- The ruleIDToIndex map of the handler, modelled as the index of the
first spec with the given ID (the Go map is built by one insertion per
spec; the two agree whenever IDs are unique, which the handler constructor
enforces). -/
def ruleIDToIndex (h : CheckServiceHandler) (id : String) : Option Nat :=
  h.ruleSpecs.findIdx? (fun rs => rs.id == id)

/-- The ID of the rule spec at the given index, or the empty string when
the index is out of range: this is exactly how the handler forms the next
page token. -/
def ruleIDAtIndex (h : CheckServiceHandler) (index : Nat) : String :=
  match h.ruleSpecs[index]? with
  | some rs => rs.id
  | none => ""

/-- Translated from the source method getRuleSpecsAndNextPageToken of
checkServiceHandler: an empty page token starts at index zero, another
token must resolve through ruleIDToIndex; a page size of zero becomes the
default; at most pageSize specs are returned from the start index; the next
page token is the ID of the first unreturned spec, or empty at the end. -/
def getRuleSpecsAndNextPageToken (h : CheckServiceHandler) (pageSize : Int) (pageToken : String) :
    Except Err (List RuleSpec × String) :=
  match (if pageToken = "" then some 0 else ruleIDToIndex h pageToken) with
  | none => .error (.invalidArgument ("unknown page token: " ++ pageToken))
  | some index =>
    let ps : Int := if pageSize = 0 then (defaultPageSize : Int) else pageSize
    let resultRuleSpecs := (h.ruleSpecs.drop index).take ps.toNat
    let nextIndex := index + resultRuleSpecs.length
    let nextPageToken := if nextIndex < h.ruleSpecs.length then ruleIDAtIndex h nextIndex else ""
    .ok (resultRuleSpecs, nextPageToken)

/-- The client-side pagination loop (translated from the loop of the source
function listRulesUncached, with the page size as a parameter; the Go
client passes 250).  The loop keeps requesting with the returned next page
token until the token is empty; the fuel bounds the number of iterations so
that the function is total (the theorems supply enough fuel for the loop to
finish exactly as the Go loop does). -/
def listRulesPaginate (h : CheckServiceHandler) (pageSize : Int) :
    Nat → String → Except Err (List RuleSpec)
  | 0, _ => .error (.other "pagination did not terminate within the provided fuel")
  | fuel + 1, pageToken =>
    match getRuleSpecsAndNextPageToken h pageSize pageToken with
    | .error e => .error e
    | .ok (specs, next) =>
      if next = "" then .ok specs
      else
        match listRulesPaginate h pageSize fuel next with
        | .error e => .error e
        | .ok rest => .ok (specs ++ rest)

/-- Client models the caller-side interface over one provider, as consumed
by the multi-client: a Check operation and a ListRules operation.  The
context argument and the call options of the Go interface carry no data
relevant to the embedded logic. -/
structure Client where
  check : Request → Except Err Response
  listRules : Except Err (List Rule)

/-- The per-delegate listing loop of getRulesAndChunkedRuleIDs: collect
each delegate's rule list in order, stopping at the first error. -/
def listAllDelegateRules : List Client → Except Err (List (List Rule))
  | [] => .ok []
  | client :: rest =>
    match client.listRules with
    | .error e => .error e
    | .ok delegateRules =>
      match listAllDelegateRules rest with
      | .error e => .error e
      | .ok restRules => .ok (delegateRules :: restRules)

/-- Translated from the source method getRulesAndChunkedRuleIDs of
multiClient: list every delegate's rules, concatenate, reject duplicate
IDs across delegates, sort globally; the per-delegate ID lists are kept
unsorted at the matching index. -/
def getRulesAndChunkedRuleIDs (clients : List Client) :
    Except Err (List Rule × List (List String)) :=
  match listAllDelegateRules clients with
  | .error e => .error e
  | .ok delegateRulesList =>
    let rules := delegateRulesList.flatten
    let chunkedRuleIDs := delegateRulesList.map (fun delegateRules => delegateRules.map (fun r => r.id))
    match validateNoDuplicateRules rules with
    | .error e => .error e
    | .ok _ => .ok (sortRules rules, chunkedRuleIDs)

/-- Translated from the source method ListRules of multiClient. -/
def multiClientListRules (clients : List Client) : Except Err (List Rule) :=
  match clients with
  | [] => .ok []
  | [client] => client.listRules
  | _ =>
    match getRulesAndChunkedRuleIDs clients with
    | .error e => .error e
    | .ok (rules, _) => .ok rules

/-- The per-delegate loop of the Check fan-out: intersect the delegate's
rule IDs with the requested set, build the delegate request, call the
delegate, and collect its annotations (translated from the loop body of the
source method Check of multiClient; note that the source builds and issues
a delegate request even when the intersection is empty). -/
def multiClientCheckLoop (request : Request) (requestRuleIDs : List String) :
    List (Client × List String) → Except Err (List Annotation)
  | [] => .ok []
  | (delegate, allDelegateRuleIDs) :: rest =>
    let requestDelegateRuleIDs := allDelegateRuleIDs.filter (fun rid => requestRuleIDs.contains rid)
    match newRequest request.files request.againstFiles request.options.keyToValue requestDelegateRuleIDs with
    | .error e => .error e
    | .ok delegateRequest =>
      match delegate.check delegateRequest with
      | .error e => .error e
      | .ok delegateResponse =>
        match multiClientCheckLoop request requestRuleIDs rest with
        | .error e => .error e
        | .ok restAnnotations => .ok (delegateResponse.annotations ++ restAnnotations)

/-- Translated from the source method Check of multiClient. -/
def multiClientCheck (clients : List Client) (request : Request) : Except Err Response :=
  match clients with
  | [] => .ok (newResponse [])
  | [client] => client.check request
  | _ =>
    match getRulesAndChunkedRuleIDs clients with
    | .error e => .error e
    | .ok (allRules, chunkedRuleIDs) =>
      let requestRuleIDs :=
        if request.ruleIDs = [] then allRules.map (fun r => r.id) else request.ruleIDs
      match multiClientCheckLoop request requestRuleIDs (clients.zip chunkedRuleIDs) with
      | .error e => .error e
      | .ok allAnnotations => .ok (newResponse allAnnotations)

/-- CachingClient models the single-provider client together with its
listing cache: the cache flag and cached fields translated from the source
struct client, and the sequence of results the underlying uncached fetch
would produce (indexed by how many fetches have happened), so that repeat
provider queries are observable. -/
structure CachingClient where
  cacheRulesAndCategories : Bool
  provider : Nat → Except Err (List Rule)
  fetchCount : Nat
  cachedRules : List Rule
  cachedRulesErr : Option Err

/-- One call of listRulesUncached: consumes the next provider result. -/
def listRulesUncachedCall (c : CachingClient) : CachingClient × Except Err (List Rule) :=
  ({ c with fetchCount := c.fetchCount + 1 }, c.provider c.fetchCount)

/-- The result currently held in the cache fields, as the Go code returns
it: the cached error when one is recorded, the cached rules otherwise. -/
def cachedOutcome (c : CachingClient) : Except Err (List Rule) :=
  match c.cachedRulesErr with
  | some e => .error e
  | none => .ok c.cachedRules

/-- Translated from the source method ListRules of client: without the
cache flag every call fetches; with it, a call returns the cached fields
when the cached rules are non-empty or a cached error exists, and otherwise
fetches and stores the result in the cache fields. -/
def clientListRules (c : CachingClient) : CachingClient × Except Err (List Rule) :=
  if ¬ c.cacheRulesAndCategories then listRulesUncachedCall c
  else if ¬ c.cachedRules.isEmpty ∨ c.cachedRulesErr.isSome then (c, cachedOutcome c)
  else
    let fetched := listRulesUncachedCall c
    let c2 :=
      { fetched.1 with
        cachedRules := (match fetched.2 with | .ok rules => rules | .error _ => []),
        cachedRulesErr := (match fetched.2 with | .ok _ => none | .error e => some e) }
    (c2, fetched.2)

/-- A sample file used by the concrete instantiations below. -/
def c3file : File := ⟨"simple.proto", false⟩

/-- A concrete request with two rule IDs, used to instantiate C3. -/
def c3req : Request :=
  { files := [c3file], againstFiles := [], options := ⟨[]⟩, ruleIDs := ["AAAA", "BBBB"] }

/-- The request produced by newRequest on concrete inputs, used to
instantiate the sortedness conjunct of C3. -/
def c3req2 : Request :=
  { files := [c3file], againstFiles := [], options := ⟨[]⟩,
    ruleIDs := sortStrings (["BBBB", "AAAA"].dedup) }

/-- A sample file for the C5 instantiation. -/
def c5file : File := ⟨"simple.proto", false⟩

/-- A concrete fresh collector over one known file, for the C5 witness. -/
def c5w : MultiResponseWriter :=
  { fileNameToFile := [("simple.proto", c5file)], againstFileNameToFile := [],
    annotations := [], written := false, errs := [] }

/-- Options with a source path but no file name: an invalid combination. -/
def c5badOpts : AddAnnotationOptions := { sourcePath := [1] }

/-- Options naming a file outside the request file set. -/
def c5unknownFileOpts : AddAnnotationOptions := { fileName := "other.proto" }

/-- A concrete fresh collector with no files, for C2. -/
def c2w0 : MultiResponseWriter :=
  { fileNameToFile := [], againstFileNameToFile := [], annotations := [], written := false,
    errs := [] }

/-- A collector holding one recorded AddAnnotation error. -/
def c2exM : MultiResponseWriter := addAnnotation c2w0 "TEST_RULE" { sourcePath := [1] }

/-- A concrete rule named FOO_BAR for the C7 instantiation. -/
def c7ruleFoo : Rule :=
  { id := "FOO_BAR", categoryIDs := [], isDefault := false, purpose := "Checks foo.",
    ruleType := RuleTypeLint, deprecated := false, replacementIDs := [] }

/-- A concrete rule named BAZ_BAT for the C7 instantiation. -/
def c7ruleBaz : Rule :=
  { id := "BAZ_BAT", categoryIDs := [], isDefault := false, purpose := "Checks baz.",
    ruleType := RuleTypeLint, deprecated := false, replacementIDs := [] }

/-- A delegate client exposing only FOO_BAR. -/
def c7clientA : Client := { check := fun _ => .ok (newResponse []), listRules := .ok [c7ruleFoo] }

/-- A second delegate also exposing FOO_BAR (overlapping with the first). -/
def c7clientB : Client := { check := fun _ => .ok (newResponse []), listRules := .ok [c7ruleFoo] }

/-- A delegate exposing only BAZ_BAT (disjoint from the first). -/
def c7clientC : Client := { check := fun _ => .ok (newResponse []), listRules := .ok [c7ruleBaz] }

/-- A rule spec with replacement IDs but Deprecated false, for the C8
witness. -/
def c8badRuleSpec : RuleSpec :=
  { id := "FOO_BAR", categoryIDs := [], isDefault := false, purpose := "Checks foo.",
    ruleType := RuleTypeLint, deprecated := false, replacementIDs := ["BAZ_BAT"],
    handler := some () }

/-- A category spec with replacement IDs but Deprecated false, for the C8
witness. -/
def c8badCategorySpec : CategorySpec :=
  { id := "SOME_CATEGORY", purpose := "Groups things.", deprecated := false,
    replacementIDs := ["OTHER_CATEGORY"] }

/-- A sample rule for the C9 instantiations. -/
def c9rule : Rule :=
  { id := "FOO_BAR", categoryIDs := [], isDefault := false, purpose := "Checks foo.",
    ruleType := RuleTypeLint, deprecated := false, replacementIDs := [] }

/-- A provider whose first listing is successfully empty and whose second
listing is non-empty, to observe re-querying. -/
def c9provider : Nat → Except Err (List Rule) :=
  fun n => if n = 0 then .ok [] else .ok [c9rule]

/-- A fresh caching client over that provider. -/
def c9c0 : CachingClient :=
  { cacheRulesAndCategories := true, provider := c9provider, fetchCount := 0,
    cachedRules := [], cachedRulesErr := none }

/-- A caching client whose cache already holds a non-empty rule list. -/
def c9cachedClient : CachingClient :=
  { cacheRulesAndCategories := true, provider := c9provider, fetchCount := 1,
    cachedRules := [c9rule], cachedRulesErr := none }

/-- A rule spec with ID AAAA. -/
def c4specA : RuleSpec :=
  { id := "AAAA", categoryIDs := [], isDefault := false, purpose := "Checks a.",
    ruleType := RuleTypeLint, deprecated := false, replacementIDs := [], handler := some () }

/-- A rule spec with ID BBBB. -/
def c4specB : RuleSpec :=
  { id := "BBBB", categoryIDs := [], isDefault := false, purpose := "Checks b.",
    ruleType := RuleTypeLint, deprecated := false, replacementIDs := [], handler := some () }

/-- A handler whose construction order is not ID order. -/
def c4handler : CheckServiceHandler := ⟨[c4specB, c4specA]⟩

/-- A sample file for the C1 instantiation. -/
def c1file : File := ⟨"simple.proto", false⟩

/-- The single rule of delegate A. -/
def c1ruleX : Rule :=
  { id := "AAAA", categoryIDs := [], isDefault := true, purpose := "Checks a.",
    ruleType := RuleTypeLint, deprecated := false, replacementIDs := [] }

/-- The single rule of delegate B. -/
def c1ruleY : Rule :=
  { id := "BBBB", categoryIDs := [], isDefault := true, purpose := "Checks b.",
    ruleType := RuleTypeLint, deprecated := false, replacementIDs := [] }

/-- The annotation delegate A's rule produces. -/
def c1annA : Annotation :=
  { ruleID := "AAAA", message := "found a", location := none, againstLocation := none }

/-- The annotation delegate B's rule produces. -/
def c1annB : Annotation :=
  { ruleID := "BBBB", message := "found b", location := none, againstLocation := none }

/-- Delegate A: a client for a provider with exactly rule AAAA, adhering to
the Client contract: the rule runs when the request names it or when the
rule-ID filter is empty (an empty filter means all rules). -/
def c1clientA : Client :=
  { check := fun r =>
      .ok (newResponse (if r.ruleIDs.contains "AAAA" || r.ruleIDs.isEmpty then [c1annA] else [])),
    listRules := .ok [c1ruleX] }

/-- Delegate B: the analogous client for a provider with exactly rule
BBBB. -/
def c1clientB : Client :=
  { check := fun r =>
      .ok (newResponse (if r.ruleIDs.contains "BBBB" || r.ruleIDs.isEmpty then [c1annB] else [])),
    listRules := .ok [c1ruleY] }

/-- A request whose explicit rule-ID filter names only delegate A's rule. -/
def c1request : Request :=
  { files := [c1file], againstFiles := [], options := ⟨[]⟩, ruleIDs := ["AAAA"] }

theorem stringCompare_flip (a b : String) : stringCompare b a = -(stringCompare a b) := by
  unfold stringCompare
  rcases lt_trichotomy a b with h | h | h
  · simp [h, not_lt_of_gt h, lt_asymm h]
  · simp [h, lt_irrefl]
  · simp [h, not_lt_of_gt h, lt_asymm h]

theorem stringCompare_eq_zero_iff {a b : String} : stringCompare a b = 0 ↔ a = b := by
  unfold stringCompare
  constructor
  · intro h
    split at h
    · exact absurd h (by decide)
    · split at h
      · exact absurd h (by decide)
      · exact le_antisymm (le_of_not_lt (by assumption)) (le_of_not_lt (by assumption))
  · intro h
    subst h
    simp [lt_irrefl]

theorem stringCompare_le_zero_iff {a b : String} : stringCompare a b ≤ 0 ↔ a ≤ b := by
  unfold stringCompare
  rcases lt_trichotomy a b with h | h | h
  · simp [h, le_of_lt h]
  · subst h
    simp [lt_irrefl]
  · simp [not_lt_of_gt h, h, not_le_of_gt h]

theorem sourcePathCompare_flip (a b : List Int) : sourcePathCompare b a = -(sourcePathCompare a b) := by
  induction a generalizing b with
  | nil => cases b <;> simp [sourcePathCompare]
  | cons x xs ih =>
    cases b with
    | nil => simp [sourcePathCompare]
    | cons y ys =>
      simp only [sourcePathCompare]
      rcases lt_trichotomy x y with h | h | h
      · simp [h, not_lt_of_gt h, lt_asymm h]
      · subst h
        simp [lt_irrefl, ih]
      · simp [h, not_lt_of_gt h, lt_asymm h]

theorem sourcePathCompare_eq_zero_iff {a b : List Int} : sourcePathCompare a b = 0 ↔ a = b := by
  induction a generalizing b with
  | nil => cases b <;> simp [sourcePathCompare]
  | cons x xs ih =>
    cases b with
    | nil => simp [sourcePathCompare]
    | cons y ys =>
      simp only [sourcePathCompare]
      rcases lt_trichotomy x y with h | h | h
      · simp [h]
        omega
      · subst h
        simp [lt_irrefl, ih]
      · simp [h, not_lt_of_gt h]
        omega

theorem sourcePathCompare_trans {a b c : List Int} (h1 : sourcePathCompare a b ≤ 0)
    (h2 : sourcePathCompare b c ≤ 0) : sourcePathCompare a c ≤ 0 := by
  induction a generalizing b c with
  | nil => cases c <;> simp [sourcePathCompare]
  | cons x xs ih =>
    cases b with
    | nil => simp [sourcePathCompare] at h1
    | cons y ys =>
      cases c with
      | nil => simp [sourcePathCompare] at h2
      | cons z zs =>
        simp only [sourcePathCompare] at h1 h2 ⊢
        rcases lt_trichotomy x y with hxy | hxy | hxy
        · rcases lt_trichotomy y z with hyz | hyz | hyz
          · have : x < z := lt_trans hxy hyz
            simp [this]
          · subst hyz
            simp [hxy]
          · exfalso
            simp [not_lt_of_gt hyz, hyz] at h2
        · subst hxy
          rcases lt_trichotomy x z with hxz | hxz | hxz
          · simp [hxz]
          · subst hxz
            simp [lt_irrefl] at h1 h2 ⊢
            exact ih h1 h2
          · exfalso
            simp [not_lt_of_gt hxz, hxz] at h2
        · exfalso
          simp [not_lt_of_gt hxy, hxy] at h1

theorem isCmp_combineCompare {α : Type} {f g : α → α → Int} (hf : IsCmp f) (hg : IsCmp g) :
    IsCmp (combineCompare f g) := by
  obtain ⟨hfa, hfs, hft⟩ := hf
  obtain ⟨hga, hgs, hgt⟩ := hg
  refine ⟨?_, ?_, ?_⟩
  · intro a b
    unfold combineCompare
    by_cases h : f a b = 0
    · have h2 : f b a = 0 := by
        rw [hfa a b]
        omega
      rw [if_pos h, if_pos h2]
      exact hga a b
    · have h2 : f b a ≠ 0 := by
        rw [hfa a b]
        omega
      rw [if_neg h, if_neg h2]
      exact hfa a b
  · intro a b c h
    unfold combineCompare at h ⊢
    by_cases hab : f a b = 0
    · rw [if_pos hab] at h
      have hfz : f a c = f b c := hfs a b c hab
      have hgz : g a c = g b c := hgs a b c h
      rw [hfz, hgz]
    · rw [if_neg hab] at h
      exact absurd h hab
  · intro a b c h1 h2
    unfold combineCompare at h1 h2 ⊢
    by_cases hab : f a b = 0
    · rw [if_pos hab] at h1
      have hsub : f a c = f b c := hfs a b c hab
      by_cases hbc : f b c = 0
      · rw [if_pos hbc] at h2
        have hfac : f a c = 0 := by
          rw [hsub]
          exact hbc
        rw [if_pos hfac]
        exact hgt a b c h1 h2
      · rw [if_neg hbc] at h2
        rw [hsub, if_neg hbc]
        exact h2
    · rw [if_neg hab] at h1
      have hablt : f a b < 0 := lt_of_le_of_ne h1 hab
      by_cases hbc : f b c = 0
      · have hcb : f c b = 0 := by
          rw [hfa b c]
          omega
        have hca : f c a = f b a := hfs c b a hcb
        have hba : f b a = -(f a b) := hfa a b
        have hac : f a c = -(f c a) := by
          have := hfa c a
          omega
        have haclt : f a c < 0 := by omega
        rw [if_neg (by omega)]
        omega
      · rw [if_neg hbc] at h2
        have hbclt : f b c < 0 := lt_of_le_of_ne h2 hbc
        have hacle : f a c ≤ 0 := hft a b c h1 h2
        have hacne : f a c ≠ 0 := by
          intro h0
          have hsub2 : f a b = f c b := hfs a c b h0
          have hflip : f c b = -(f b c) := hfa b c
          omega
        rw [if_neg hacne]
        omega

theorem isCmp_optCompare {α : Type} {f : α → α → Int} (hf : IsCmp f)
    (hz : ∀ a b, f a b = 0 → a = b) : IsCmp (optCompare f) := by
  obtain ⟨hfa, _, hft⟩ := hf
  refine ⟨?_, ?_, ?_⟩
  · intro a b
    cases a with
    | none =>
      cases b with
      | none => rfl
      | some vb => rfl
    | some va =>
      cases b with
      | none => rfl
      | some vb => exact hfa va vb
  · intro a b c h
    cases a with
    | none =>
      cases b with
      | none => rfl
      | some vb => simp [optCompare] at h
    | some va =>
      cases b with
      | none => simp [optCompare] at h
      | some vb =>
        simp only [optCompare] at h
        have : va = vb := hz va vb h
        subst this
        rfl
  · intro a b c h1 h2
    cases a with
    | none => cases c <;> simp [optCompare]
    | some va =>
      cases b with
      | none => simp [optCompare] at h1
      | some vb =>
        cases c with
        | none => simp [optCompare] at h2
        | some vc =>
          simp only [optCompare] at h1 h2 ⊢
          exact hft va vb vc h1 h2

theorem joinCompares_nil : joinCompares [] = 0 := rfl

theorem joinCompares_cons (c : Int) (rest : List Int) :
    joinCompares (c :: rest) = if c ≠ 0 then c else joinCompares rest := rfl

theorem compareLocations_eq_combine (l1 l2 : Location) :
    compareLocations l1 l2 =
      combineCompare (fun a b : Location => stringCompare a.fileName b.fileName)
        (fun a b : Location => sourcePathCompare a.sourcePath b.sourcePath) l1 l2 := by
  unfold compareLocations combineCompare
  by_cases h : stringCompare l1.fileName l2.fileName = 0
  · by_cases h2 : sourcePathCompare l1.sourcePath l2.sourcePath = 0
    · simp [joinCompares_cons, joinCompares_nil, h, h2]
    · simp [joinCompares_cons, joinCompares_nil, h, h2]
  · simp [joinCompares_cons, h]

theorem isCmp_compareLocations : IsCmp compareLocations := by
  have h := @isCmp_combineCompare Location (fun a b : Location => stringCompare a.fileName b.fileName)
    (fun a b : Location => sourcePathCompare a.sourcePath b.sourcePath) ?_ ?_
  · obtain ⟨h1, h2, h3⟩ := h
    refine ⟨?_, ?_, ?_⟩
    · intro a b
      rw [compareLocations_eq_combine, compareLocations_eq_combine]
      exact h1 a b
    · intro a b c hz
      rw [compareLocations_eq_combine] at hz
      rw [compareLocations_eq_combine, compareLocations_eq_combine]
      exact h2 a b c hz
    · intro a b c hab hbc
      rw [compareLocations_eq_combine] at hab hbc
      rw [compareLocations_eq_combine]
      exact h3 a b c hab hbc
  · refine ⟨?_, ?_, ?_⟩
    · intro a b
      exact stringCompare_flip a.fileName b.fileName
    · intro a b c hz
      have heq : a.fileName = b.fileName := stringCompare_eq_zero_iff.mp hz
      show stringCompare a.fileName c.fileName = stringCompare b.fileName c.fileName
      rw [heq]
    · intro a b c hab hbc
      simp only at hab hbc ⊢
      rw [stringCompare_le_zero_iff] at hab hbc ⊢
      exact le_trans hab hbc
  · refine ⟨?_, ?_, ?_⟩
    · intro a b
      exact sourcePathCompare_flip a.sourcePath b.sourcePath
    · intro a b c hz
      have heq : a.sourcePath = b.sourcePath := sourcePathCompare_eq_zero_iff.mp hz
      show sourcePathCompare a.sourcePath c.sourcePath = sourcePathCompare b.sourcePath c.sourcePath
      rw [heq]
    · intro a b c hab hbc
      exact sourcePathCompare_trans hab hbc

theorem compareLocations_eq_zero {l1 l2 : Location} (h : compareLocations l1 l2 = 0) : l1 = l2 := by
  rw [compareLocations_eq_combine] at h
  unfold combineCompare at h
  by_cases h1 : stringCompare l1.fileName l2.fileName = 0
  · rw [if_pos h1] at h
    have hf : l1.fileName = l2.fileName := stringCompare_eq_zero_iff.mp h1
    have hp : l1.sourcePath = l2.sourcePath := sourcePathCompare_eq_zero_iff.mp h
    cases l1
    cases l2
    simp_all
  · rw [if_neg h1] at h
    exact absurd h h1

theorem compareAnnotations_eq_combine (a1 a2 : Annotation) :
    compareAnnotations a1 a2 =
      combineCompare (fun x y : Annotation => stringCompare x.ruleID y.ruleID)
        (combineCompare (fun x y : Annotation => optCompare compareLocations x.location y.location)
          (fun x y : Annotation => optCompare compareLocations x.againstLocation y.againstLocation)) a1 a2 := by
  unfold compareAnnotations combineCompare
  by_cases h1 : stringCompare a1.ruleID a2.ruleID = 0
  · by_cases h2 : optCompare compareLocations a1.location a2.location = 0
    · by_cases h3 : optCompare compareLocations a1.againstLocation a2.againstLocation = 0
      · simp [joinCompares_cons, joinCompares_nil, h1, h2, h3]
      · simp [joinCompares_cons, joinCompares_nil, h1, h2, h3]
    · simp [joinCompares_cons, h1, h2]
  · simp [joinCompares_cons, h1]

theorem isCmp_compareAnnotations : IsCmp compareAnnotations := by
  have hr : IsCmp (fun x y : Annotation => stringCompare x.ruleID y.ruleID) := by
    refine ⟨?_, ?_, ?_⟩
    · intro a b
      exact stringCompare_flip a.ruleID b.ruleID
    · intro a b c hz
      have : a.ruleID = b.ruleID := stringCompare_eq_zero_iff.mp hz
      simp only
      rw [this]
    · intro a b c hab hbc
      simp only at hab hbc ⊢
      rw [stringCompare_le_zero_iff] at hab hbc ⊢
      exact le_trans hab hbc
  have hopt : IsCmp (optCompare compareLocations) :=
    isCmp_optCompare isCmp_compareLocations (fun a b h => compareLocations_eq_zero h)
  obtain ⟨ho1, ho2, ho3⟩ := hopt
  have hl : IsCmp (fun x y : Annotation => optCompare compareLocations x.location y.location) := by
    refine ⟨?_, ?_, ?_⟩
    · intro a b
      exact ho1 a.location b.location
    · intro a b c hz
      simp only at hz ⊢
      rw [ho2 a.location b.location c.location hz]
    · intro a b c hab hbc
      exact ho3 a.location b.location c.location hab hbc
  have ha : IsCmp (fun x y : Annotation => optCompare compareLocations x.againstLocation y.againstLocation) := by
    refine ⟨?_, ?_, ?_⟩
    · intro a b
      exact ho1 a.againstLocation b.againstLocation
    · intro a b c hz
      simp only at hz ⊢
      rw [ho2 a.againstLocation b.againstLocation c.againstLocation hz]
    · intro a b c hab hbc
      exact ho3 a.againstLocation b.againstLocation c.againstLocation hab hbc
  have h := isCmp_combineCompare hr (isCmp_combineCompare hl ha)
  obtain ⟨h1, h2, h3⟩ := h
  refine ⟨?_, ?_, ?_⟩
  · intro a b
    rw [compareAnnotations_eq_combine, compareAnnotations_eq_combine]
    exact h1 a b
  · intro a b c hz
    rw [compareAnnotations_eq_combine] at hz
    rw [compareAnnotations_eq_combine, compareAnnotations_eq_combine]
    exact h2 a b c hz
  · intro a b c hab hbc
    rw [compareAnnotations_eq_combine] at hab hbc
    rw [compareAnnotations_eq_combine]
    exact h3 a b c hab hbc

instance : IsTotal Annotation annotationLE := by
  refine ⟨fun a b => ?_⟩
  obtain ⟨h1, _, _⟩ := isCmp_compareAnnotations
  have := h1 a b
  unfold annotationLE
  omega

instance : IsTrans Annotation annotationLE := by
  refine ⟨fun a b c hab hbc => ?_⟩
  obtain ⟨_, _, h3⟩ := isCmp_compareAnnotations
  exact h3 a b c hab hbc

theorem duplicatedIDs_eq_nil_of_nodup {ids : List String} (h : ids.Nodup) :
    duplicatedIDs ids = [] := by
  unfold duplicatedIDs sortStrings
  have hfilter : ids.dedup.filter (fun id => 1 < ids.count id) = [] := by
    rw [List.filter_eq_nil_iff]
    intro a _
    have := List.nodup_iff_count_le_one.mp h a
    simp
    omega
  rw [hfilter]
  rfl

theorem duplicatedIDs_ne_nil_of_dup {ids : List String} {a : String} (h : 1 < ids.count a) :
    duplicatedIDs ids ≠ [] := by
  unfold duplicatedIDs
  have hmem : a ∈ ids := by
    rw [← List.count_pos_iff]
    omega
  have hmemf : a ∈ ids.dedup.filter (fun id => 1 < ids.count id) := by
    rw [List.mem_filter]
    refine ⟨List.mem_dedup.mpr hmem, by simpa using h⟩
  intro hnil
  unfold sortStrings at hnil
  have hperm := List.perm_insertionSort (fun a b : String => a ≤ b) (ids.dedup.filter (fun id => 1 < ids.count id))
  rw [hnil] at hperm
  have := hperm.symm.mem_iff.mp hmemf
  simp at this

theorem not_nodup_of_count_two {ids : List String} {a : String} (h : 1 < ids.count a) :
    ¬ ids.Nodup := by
  intro hn
  have := List.nodup_iff_count_le_one.mp hn a
  omega

theorem chunkRuleIDs_flatten (l : List String) : (chunkRuleIDs l).flatten = l := by
  induction l using chunkRuleIDs.induct with
  | case1 =>
    rw [chunkRuleIDs]
    rfl
  | case2 a rest ih =>
    rw [chunkRuleIDs]
    rw [List.flatten_cons, ih, List.take_append_drop]

theorem chunkRuleIDs_sizes {l : List String} {c : List String} (h : c ∈ chunkRuleIDs l) :
    c.length ≤ checkRuleIDPageSize := by
  induction l using chunkRuleIDs.induct with
  | case1 =>
    rw [chunkRuleIDs] at h
    simp at h
  | case2 a rest ih =>
    rw [chunkRuleIDs] at h
    rcases List.mem_cons.mp h with h1 | h1
    · subst h1
      exact List.length_take_le checkRuleIDPageSize (a :: rest)
    · exact ih h1

theorem chunkRuleIDs_length {l : List String} (h : l ≠ []) :
    (chunkRuleIDs l).length = (l.length + (checkRuleIDPageSize - 1)) / checkRuleIDPageSize := by
  induction l using chunkRuleIDs.induct with
  | case1 => exact absurd rfl h
  | case2 a rest ih =>
    rw [chunkRuleIDs]
    by_cases hlen : (a :: rest).length ≤ checkRuleIDPageSize
    · have hdrop : (a :: rest).drop checkRuleIDPageSize = [] := by
        rw [List.drop_eq_nil_iff]
        exact hlen
      rw [hdrop, chunkRuleIDs]
      simp only [List.length_cons, List.length_nil]
      simp only [List.length_cons] at hlen
      unfold checkRuleIDPageSize at hlen ⊢
      omega
    · have hdropne : (a :: rest).drop checkRuleIDPageSize ≠ [] := by
        rw [ne_eq, List.drop_eq_nil_iff]
        omega
      rw [List.length_cons, ih hdropne]
      simp only [List.length_drop, List.length_cons]
      unfold checkRuleIDPageSize at hlen ⊢
      omega

/-- C10: a multi-client over an empty delegate list answers every Check
request with a non-nil response holding no annotations and no error, never
consulting a delegate. -/
theorem c10_emptyMultiClientCheck (request : Request) :
    multiClientCheck [] request = .ok (newResponse []) ∧ (newResponse []).annotations = [] :=
  ⟨rfl, rfl⟩

/-- C6: for every annotation list, in whatever order it was accumulated,
the response built by newResponse is sorted ascending by the annotation
comparator (rule ID first, then location file name then structural path,
missing locations minimal — the relation annotationLE) and is a
permutation of the input (nothing lost, nothing duplicated). -/
theorem c6_responseAnnotationsSorted (annotations : List Annotation) :
    List.Sorted annotationLE (newResponse annotations).annotations ∧
    List.Perm (newResponse annotations).annotations annotations :=
  ⟨List.sorted_insertionSort annotationLE annotations,
   List.perm_insertionSort annotationLE annotations⟩

/-- C3: a request with no rule IDs serializes to exactly one CheckRequest
with no rule IDs; a request with n > 0 rule IDs serializes to exactly
⌈n/250⌉ CheckRequests whose rule ID lists concatenate, in order, to the
request's rule ID list, each chunk of size at most 250, every CheckRequest
carrying the request's files, against files and options; and the rule ID
list of a constructed request is sorted. -/
theorem c3_requestChunking (r : Request) :
    (r.ruleIDs = [] →
      Request.toProtos r = [checkRequestForChunk r []] ∧ (checkRequestForChunk r []).ruleIds = []) ∧
    (r.ruleIDs ≠ [] →
      (Request.toProtos r).length = (r.ruleIDs.length + 249) / 250 ∧
      ((Request.toProtos r).map (fun cr => cr.ruleIds)).flatten = r.ruleIDs ∧
      (∀ cr ∈ Request.toProtos r,
        cr.ruleIds.length ≤ 250 ∧ cr.files = r.files ∧ cr.againstFiles = r.againstFiles ∧
        cr.options = r.options)) ∧
    (∀ (files againstFiles : List File) (keyToValue : List (String × Bytes))
        (ruleIDs : List String) (req : Request),
      newRequest files againstFiles keyToValue ruleIDs = .ok req →
      List.Sorted (fun a b : String => a ≤ b) req.ruleIDs) := by
  refine ⟨?_, ?_, ?_⟩
  · intro h
    unfold Request.toProtos
    rw [if_pos h]
    exact ⟨rfl, rfl⟩
  · intro h
    unfold Request.toProtos
    rw [if_neg h]
    refine ⟨?_, ?_, ?_⟩
    · rw [List.length_map]
      exact chunkRuleIDs_length h
    · rw [List.map_map]
      have hcomp : ((fun cr : CheckRequest => cr.ruleIds) ∘ checkRequestForChunk r) = id := rfl
      rw [hcomp, List.map_id]
      exact chunkRuleIDs_flatten r.ruleIDs
    · intro cr hcr
      rcases List.mem_map.mp hcr with ⟨chunk, hchunk, hceq⟩
      subst hceq
      exact ⟨chunkRuleIDs_sizes hchunk, rfl, rfl, rfl⟩
  · intro files againstFiles keyToValue ruleIDs req h
    unfold newRequest at h
    cases hopt : newOptions keyToValue with
    | error e =>
      rw [hopt] at h
      exact absurd h (by simp)
    | ok options =>
      rw [hopt] at h
      have hreq : req = { files := files, againstFiles := againstFiles, options := options,
                          ruleIDs := sortStrings ruleIDs.dedup } := by
        cases h
        rfl
      rw [hreq]
      exact List.sorted_insertionSort (fun a b : String => a ≤ b) ruleIDs.dedup

/-- C5 deferred-error discipline of the collector: an invalid option
combination (descriptor with explicit file name or source path; source path
without file name) always fails option validation; any AddAnnotation call
whose options fail validation records exactly that error and appends no
annotation; an AddAnnotation call naming a file outside the request's file
set records the unknown-file error and appends no annotation; and recorded
errors surface only at toResponse, joined, leaving the collector state
unchanged.  AddAnnotation itself returns no error (its type has no error
channel). -/
theorem c5_addAnnotationAccumulatesErrors :
    (∀ o : AddAnnotationOptions, o.descriptor.isSome → (o.fileName ≠ "" ∨ o.sourcePath ≠ []) →
      ∃ e, validateAddAnnotationOptions o = .error e) ∧
    (∀ o : AddAnnotationOptions, o.fileName = "" → o.sourcePath ≠ [] →
      ∃ e, validateAddAnnotationOptions o = .error e) ∧
    (∀ (m : MultiResponseWriter) (ruleID : String) (o : AddAnnotationOptions) (e : Err),
      validateAddAnnotationOptions o = .error e →
      addAnnotation m ruleID o = { m with errs := m.errs ++ [e] }) ∧
    (∀ (m : MultiResponseWriter) (ruleID : String) (o : AddAnnotationOptions),
      validateAddAnnotationOptions o = .ok () → m.written = false → o.descriptor = none →
      o.fileName ≠ "" → mapLookup m.fileNameToFile o.fileName = none →
      addAnnotation m ruleID o = { m with errs := m.errs ++ [.unknownFile o.fileName] }) ∧
    (∀ m : MultiResponseWriter, m.errs ≠ [] →
      toResponse m = (m, .error (.joined m.errs))) := by
  refine ⟨?_, ?_, ?_, ?_, ?_⟩
  · intro o h1 h2
    unfold validateAddAnnotationOptions
    rw [if_pos ⟨h1, h2⟩]
    exact ⟨_, rfl⟩
  · intro o h1 h2
    unfold validateAddAnnotationOptions
    by_cases hc1 : o.descriptor.isSome ∧ (o.fileName ≠ "" ∨ o.sourcePath ≠ [])
    · rw [if_pos hc1]
      exact ⟨_, rfl⟩
    · rw [if_neg hc1]
      by_cases hc2 : o.againstDescriptor.isSome ∧ (o.againstFileName ≠ "" ∨ o.againstSourcePath ≠ [])
      · rw [if_pos hc2]
        exact ⟨_, rfl⟩
      · rw [if_neg hc2, if_pos ⟨h1, h2⟩]
        exact ⟨_, rfl⟩
  · intro m ruleID o e h
    unfold addAnnotation
    rw [h]
  · intro m ruleID o hvalid hw hdesc hfn hlookup
    unfold addAnnotation getLocationForAddAnnotationOptions
    rw [hvalid, hw, hdesc]
    simp only [Bool.false_eq_true, if_false]
    rw [if_pos hfn, hlookup]
  · intro m h
    unfold toResponse
    cases herr : m.errs with
    | nil => exact absurd herr h
    | cons e rest => rfl

/-- C2 exactly-once semantics of the collector, as the code implements it:
with no recorded error and not yet finalized, toResponse succeeds, marks
the collector written, and returns a response that is a permutation of the
accumulated annotations (none lost, none duplicated); with no recorded
error but already finalized, toResponse fails with the cannot-reuse
(AlreadyWritten) error and leaves the state unchanged, so every subsequent
call keeps failing the same way; once any error has been recorded,
toResponse fails with the joined recorded errors (not with the
AlreadyWritten error). -/
theorem c2_toResponseExactlyOnce :
    (∀ m : MultiResponseWriter, m.errs = [] → m.written = false →
      toResponse m = ({ m with written := true }, .ok (newResponse m.annotations)) ∧
      List.Perm (newResponse m.annotations).annotations m.annotations) ∧
    (∀ m : MultiResponseWriter, m.errs = [] → m.written = true →
      toResponse m = (m, .error .cannotReuseResponseWriter)) ∧
    (∀ m : MultiResponseWriter, m.errs ≠ [] →
      toResponse m = (m, .error (.joined m.errs))) := by
  refine ⟨?_, ?_, ?_⟩
  · intro m herr hw
    constructor
    · unfold toResponse
      cases he : m.errs with
      | nil =>
        rw [hw]
        simp only [Bool.false_eq_true, if_false]
      | cons e rest =>
        rw [herr] at he
        exact absurd he.symm (by simp)
    · exact List.perm_insertionSort annotationLE m.annotations
  · intro m herr hw
    unfold toResponse
    cases he : m.errs with
    | nil =>
      rw [hw]
      simp only [if_true]
    | cons e rest =>
      rw [herr] at he
      exact absurd he.symm (by simp)
  · intro m h
    unfold toResponse
    cases herr : m.errs with
    | nil => exact absurd herr h
    | cons e rest => rfl

/-- Witness for C3 at a concrete request. -/
theorem c3_witness :
    c3req.ruleIDs ≠ [] ∧
    ((Request.toProtos c3req).map (fun cr => cr.ruleIds)).flatten = c3req.ruleIDs ∧
    List.Sorted (fun a b : String => a ≤ b) c3req2.ruleIDs := by
  refine ⟨by decide, ?_, ?_⟩
  · exact ((c3_requestChunking c3req).2.1 (by decide)).2.1
  · exact (c3_requestChunking c3req).2.2 [c3file] [] [] ["BBBB", "AAAA"] c3req2 rfl

/-- Witness for C5 at concrete inputs. -/
theorem c5_witness :
    validateAddAnnotationOptions c5badOpts = .error .cannotUsePathWithoutFileName ∧
    addAnnotation c5w "TEST_RULE" c5badOpts = { c5w with errs := [Err.cannotUsePathWithoutFileName] } ∧
    addAnnotation c5w "TEST_RULE" c5unknownFileOpts = { c5w with errs := [Err.unknownFile "other.proto"] } := by
  have hv : validateAddAnnotationOptions c5badOpts = .error .cannotUsePathWithoutFileName := rfl
  refine ⟨hv, ?_, ?_⟩
  · have h := c5_addAnnotationAccumulatesErrors.2.2.1 c5w "TEST_RULE" c5badOpts
      Err.cannotUsePathWithoutFileName hv
    rw [h]
    rfl
  · have h := c5_addAnnotationAccumulatesErrors.2.2.2.1 c5w "TEST_RULE" c5unknownFileOpts
      rfl rfl rfl (by decide) rfl
    rw [h]
    rfl

/-- Witness for C2 at a concrete collector: the first finalize succeeds and
the second fails with the cannot-reuse error. -/
theorem c2_witness :
    toResponse c2w0 = ({ c2w0 with written := true }, .ok (newResponse [])) ∧
    toResponse { c2w0 with written := true } =
      ({ c2w0 with written := true }, .error .cannotReuseResponseWriter) := by
  constructor
  · exact (c2_toResponseExactlyOnce.1 c2w0 rfl rfl).1
  · exact c2_toResponseExactlyOnce.2.1 { c2w0 with written := true } rfl rfl

/-- Counterexample for C2 as stated: after an internal error has been
recorded, toResponse fails with the joined recorded errors, which is not
the cannot-reuse (AlreadyWritten) error the claim requires. -/
theorem c2_counterexample :
    (toResponse c2exM).2 = .error (.joined [.cannotUsePathWithoutFileName]) ∧
    (toResponse c2exM).2 ≠ .error .cannotReuseResponseWriter := by
  refine ⟨rfl, ?_⟩
  intro h
  have h2 : Err.joined [Err.cannotUsePathWithoutFileName] = Err.cannotReuseResponseWriter := by
    have hval : (toResponse c2exM).2 = .error (.joined [.cannotUsePathWithoutFileName]) := rfl
    rw [hval] at h
    exact Except.error.inj h
  exact Err.noConfusion h2

theorem validateNoDuplicateRuleIDs_ok_of_nodup {ids : List String} (h : ids.Nodup) :
    validateNoDuplicateRuleIDs ids = .ok () := by
  unfold validateNoDuplicateRuleIDs
  rw [if_pos (duplicatedIDs_eq_nil_of_nodup h)]

theorem validateNoDuplicateRuleIDs_error_of_dup {ids : List String} {a : String}
    (h : 1 < ids.count a) :
    validateNoDuplicateRuleIDs ids = .error (.duplicateRuleIDs (duplicatedIDs ids)) ∧
    duplicatedIDs ids ≠ [] := by
  have hne := duplicatedIDs_ne_nil_of_dup h
  unfold validateNoDuplicateRuleIDs
  rw [if_neg hne]
  exact ⟨rfl, hne⟩

theorem nodup_of_validateNoDuplicateRuleIDs_ok {ids : List String}
    (h : validateNoDuplicateRuleIDs ids = .ok ()) : ids.Nodup := by
  by_contra hn
  rw [List.nodup_iff_count_le_one] at hn
  push_neg at hn
  obtain ⟨a, ha⟩ := hn
  have hcnt : 1 < ids.count a := by omega
  have hne := duplicatedIDs_ne_nil_of_dup hcnt
  unfold validateNoDuplicateRuleIDs at h
  rw [if_neg hne] at h
  exact absurd h (by simp)

/-- C7: over two delegates whose rule sets share some rule ID, the
multi-client ListRules fails with a duplicate-rule-ID error; over two
delegates with disjoint rule IDs it succeeds with the union of their rule
lists, globally sorted by rule ID. -/
theorem c7_multiClientDisjointness (cA cB : Client) (ra rb : List Rule)
    (ha : cA.listRules = .ok ra) (hb : cB.listRules = .ok rb) :
    ((∃ id, id ∈ ra.map (fun r => r.id) ∧ id ∈ rb.map (fun r => r.id)) →
      ∃ dups, multiClientListRules [cA, cB] = .error (.duplicateRuleIDs dups) ∧ dups ≠ []) ∧
    (((ra ++ rb).map (fun r => r.id)).Nodup →
      multiClientListRules [cA, cB] = .ok (sortRules (ra ++ rb)) ∧
      List.Perm (sortRules (ra ++ rb)) (ra ++ rb) ∧
      List.Sorted ruleLE (sortRules (ra ++ rb))) := by
  have hlist : listAllDelegateRules [cA, cB] = .ok [ra, rb] := by
    unfold listAllDelegateRules
    rw [ha]
    unfold listAllDelegateRules
    rw [hb]
    rfl
  have hflat : ([ra, rb] : List (List Rule)).flatten = ra ++ rb := by
    simp
  constructor
  · intro hshared
    obtain ⟨id, hina, hinb⟩ := hshared
    have hcount : 1 < ((ra ++ rb).map (fun r => r.id)).count id := by
      rw [List.map_append, List.count_append]
      have h1 : 0 < (ra.map (fun r => r.id)).count id := List.count_pos_iff.mpr hina
      have h2 : 0 < (rb.map (fun r => r.id)).count id := List.count_pos_iff.mpr hinb
      omega
    have hval := validateNoDuplicateRuleIDs_error_of_dup hcount
    refine ⟨duplicatedIDs ((ra ++ rb).map (fun r => r.id)), ?_, hval.2⟩
    show multiClientListRules [cA, cB] = _
    unfold multiClientListRules getRulesAndChunkedRuleIDs
    rw [hlist]
    simp only [hflat]
    unfold validateNoDuplicateRules
    rw [hval.1]
  · intro hnodup
    have hval : validateNoDuplicateRuleIDs ((ra ++ rb).map (fun r => r.id)) = .ok () :=
      validateNoDuplicateRuleIDs_ok_of_nodup hnodup
    refine ⟨?_, List.perm_insertionSort ruleLE (ra ++ rb),
      List.sorted_insertionSort ruleLE (ra ++ rb)⟩
    unfold multiClientListRules getRulesAndChunkedRuleIDs
    rw [hlist]
    simp only [hflat]
    unfold validateNoDuplicateRules
    rw [hval]

/-- Witness for C7 at concrete delegates. -/
theorem c7_witness :
    (∃ dups, multiClientListRules [c7clientA, c7clientB] = .error (.duplicateRuleIDs dups) ∧
      dups ≠ []) ∧
    multiClientListRules [c7clientA, c7clientC] = .ok (sortRules ([c7ruleFoo] ++ [c7ruleBaz])) := by
  constructor
  · exact (c7_multiClientDisjointness c7clientA c7clientB [c7ruleFoo] [c7ruleFoo] rfl rfl).1
      ⟨"FOO_BAR", by decide, by decide⟩
  · exact ((c7_multiClientDisjointness c7clientA c7clientC [c7ruleFoo] [c7ruleBaz] rfl rfl).2
      (by decide)).1

theorem validateRuleSpec_error_of_flag {spec : RuleSpec} {m : List (String × RuleSpec)}
    {cats : List String} (h1 : spec.replacementIDs ≠ []) (h2 : spec.deprecated = false) :
    ∃ e, validateRuleSpec spec m cats = .error e := by
  unfold validateRuleSpec
  cases hc : checkRuleCategoryIDs cats spec.categoryIDs with
  | error e =>
    exact ⟨e, rfl⟩
  | ok u =>
    by_cases hp : spec.purpose = ""
    · rw [if_pos hp]
      exact ⟨_, rfl⟩
    · rw [if_neg hp]
      by_cases ht : spec.ruleType = 0
      · rw [if_pos ht]
        exact ⟨_, rfl⟩
      · rw [if_neg ht]
        by_cases htk : ¬ ruleTypeToProtoRuleTypeKeys.contains spec.ruleType
        · rw [if_pos htk]
          exact ⟨_, rfl⟩
        · rw [if_neg htk]
          by_cases hh : spec.handler = none
          · rw [if_pos hh]
            exact ⟨_, rfl⟩
          · rw [if_neg hh, if_pos ⟨h1, h2⟩]
            exact ⟨_, rfl⟩

theorem checkRuleReplacementIDs_error {m : List (String × RuleSpec)} {specID : String}
    {rids : List String}
    (h : ∃ rid ∈ rids, mapLookup m rid = none ∨ ∃ s, mapLookup m rid = some s ∧ s.deprecated = true) :
    ∃ e, checkRuleReplacementIDs m specID rids = .error e := by
  induction rids with
  | nil =>
    obtain ⟨rid, hmem, _⟩ := h
    exact absurd hmem (by simp)
  | cons r rest ih =>
    unfold checkRuleReplacementIDs
    cases hl : mapLookup m r with
    | none => exact ⟨_, rfl⟩
    | some s =>
      show ∃ e,
        (if s.deprecated = true then
          Except.error (Err.validateRuleSpecError
            ("Deprecated ID " ++ specID ++ " specified replacement ID " ++ r ++ " which also deprecated"))
        else checkRuleReplacementIDs m specID rest) = Except.error e
      by_cases hdep : s.deprecated = true
      · rw [if_pos hdep]
        exact ⟨_, rfl⟩
      · rw [if_neg hdep]
        apply ih
        obtain ⟨rid, hmem, hcond⟩ := h
        rcases List.mem_cons.mp hmem with heq | hmemr
        · subst heq
          rcases hcond with hnone | ⟨s2, hs2, hs2dep⟩
          · rw [hl] at hnone
            exact absurd hnone (by simp)
          · rw [hl] at hs2
            have hss : s2 = s := (Option.some.inj hs2).symm
            rw [hss] at hs2dep
            exact absurd hs2dep hdep
        · exact ⟨rid, hmemr, hcond⟩

theorem validateRuleSpec_error_of_badReplacement {spec : RuleSpec}
    {m : List (String × RuleSpec)} {cats : List String}
    (h : ∃ rid ∈ spec.replacementIDs,
      mapLookup m rid = none ∨ ∃ s, mapLookup m rid = some s ∧ s.deprecated = true) :
    ∃ e, validateRuleSpec spec m cats = .error e := by
  unfold validateRuleSpec
  cases hc : checkRuleCategoryIDs cats spec.categoryIDs with
  | error e =>
    exact ⟨e, rfl⟩
  | ok u =>
    by_cases hp : spec.purpose = ""
    · rw [if_pos hp]
      exact ⟨_, rfl⟩
    · rw [if_neg hp]
      by_cases ht : spec.ruleType = 0
      · rw [if_pos ht]
        exact ⟨_, rfl⟩
      · rw [if_neg ht]
        by_cases htk : ¬ ruleTypeToProtoRuleTypeKeys.contains spec.ruleType
        · rw [if_pos htk]
          exact ⟨_, rfl⟩
        · rw [if_neg htk]
          by_cases hh : spec.handler = none
          · rw [if_pos hh]
            exact ⟨_, rfl⟩
          · rw [if_neg hh]
            by_cases hflag : spec.replacementIDs ≠ [] ∧ spec.deprecated = false
            · rw [if_pos hflag]
              exact ⟨_, rfl⟩
            · rw [if_neg hflag]
              exact checkRuleReplacementIDs_error h

theorem validateRuleSpecsLoop_error {m : List (String × RuleSpec)} {cats : List String}
    {specs : List RuleSpec} {spec : RuleSpec} (hmem : spec ∈ specs)
    (hspec : ∃ e, validateRuleSpec spec m cats = .error e) :
    ∃ e, validateRuleSpecsLoop m cats specs = .error e := by
  induction specs with
  | nil => exact absurd hmem (by simp)
  | cons s rest ih =>
    unfold validateRuleSpecsLoop
    cases hv : validateRuleSpec s m cats with
    | error e => exact ⟨e, rfl⟩
    | ok u =>
      rcases List.mem_cons.mp hmem with heq | hmemr
      · subst heq
        obtain ⟨e, he⟩ := hspec
        rw [hv] at he
        exact absurd he (by simp)
      · exact ih hmemr

theorem buildRuleIDToRuleSpec_ok_eq {specs : List RuleSpec} {m : List (String × RuleSpec)}
    (h : buildRuleIDToRuleSpec specs = .ok m) : m = specs.map (fun s => (s.id, s)) := by
  induction specs generalizing m with
  | nil =>
    unfold buildRuleIDToRuleSpec at h
    injection h with h
    rw [← h]
    rfl
  | cons s rest ih =>
    unfold buildRuleIDToRuleSpec at h
    by_cases hid : s.id = ""
    · rw [if_pos hid] at h
      exact absurd h (by simp)
    · rw [if_neg hid] at h
      cases hr : buildRuleIDToRuleSpec rest with
      | error e =>
        rw [hr] at h
        exact absurd h (by simp)
      | ok m2 =>
        rw [hr] at h
        injection h with h
        rw [← h, List.map_cons, ih hr]

theorem mapLookup_mapped (specs : List RuleSpec) (rid : String) :
    mapLookup (specs.map (fun s => (s.id, s))) rid = specs.find? (fun s => s.id == rid) := by
  induction specs with
  | nil => rfl
  | cons s rest ih =>
    unfold mapLookup
    rw [List.map_cons, List.find?_cons, List.find?_cons]
    by_cases h : s.id == rid
    · simp only [h]
      rfl
    · simp only [h]
      exact ih

theorem find?_ruleSpec_of_nodup {specs : List RuleSpec} {s : RuleSpec} {rid : String}
    (hnodup : (specs.map (fun x => x.id)).Nodup) (hmem : s ∈ specs) (hid : s.id = rid) :
    specs.find? (fun x => x.id == rid) = some s := by
  induction specs with
  | nil => exact absurd hmem (by simp)
  | cons a rest ih =>
    rw [List.map_cons, List.nodup_cons] at hnodup
    rw [List.find?_cons]
    by_cases ha : a.id == rid
    · have haid : a.id = rid := by
        exact beq_iff_eq.mp ha
      simp only [ha]
      rcases List.mem_cons.mp hmem with heq | hmemr
      · rw [heq]
      · exfalso
        have : a.id ∈ rest.map (fun x => x.id) := by
          rw [haid, ← hid]
          exact List.mem_map.mpr ⟨s, hmemr, rfl⟩
        exact hnodup.1 this
    · simp only [ha]
      rcases List.mem_cons.mp hmem with heq | hmemr
      · exfalso
        rw [heq] at hid
        rw [hid] at ha
        simp at ha
      · exact ih hnodup.2 hmemr

theorem nodup_of_validateNoDuplicateCategoryIDs_ok {ids : List String}
    (h : validateNoDuplicateCategoryIDs ids = .ok ()) : ids.Nodup := by
  by_contra hn
  rw [List.nodup_iff_count_le_one] at hn
  push_neg at hn
  obtain ⟨a, ha⟩ := hn
  have hcnt : 1 < ids.count a := by omega
  have hne := duplicatedIDs_ne_nil_of_dup hcnt
  unfold validateNoDuplicateCategoryIDs at h
  rw [if_neg hne] at h
  exact absurd h (by simp)

theorem validateCategorySpec_error_of_flag {spec : CategorySpec}
    {m : List (String × CategorySpec)}
    (h1 : spec.replacementIDs ≠ []) (h2 : spec.deprecated = false) :
    ∃ e, validateCategorySpec spec m = .error e := by
  unfold validateCategorySpec
  by_cases hp : spec.purpose = ""
  · rw [if_pos hp]
    exact ⟨_, rfl⟩
  · rw [if_neg hp, if_pos ⟨h1, h2⟩]
    exact ⟨_, rfl⟩

theorem checkCategoryReplacementIDs_error {m : List (String × CategorySpec)} {specID : String}
    {rids : List String}
    (h : ∃ rid ∈ rids, mapLookup m rid = none ∨ ∃ s, mapLookup m rid = some s ∧ s.deprecated = true) :
    ∃ e, checkCategoryReplacementIDs m specID rids = .error e := by
  induction rids with
  | nil =>
    obtain ⟨rid, hmem, _⟩ := h
    exact absurd hmem (by simp)
  | cons r rest ih =>
    unfold checkCategoryReplacementIDs
    cases hl : mapLookup m r with
    | none => exact ⟨_, rfl⟩
    | some s =>
      show ∃ e,
        (if s.deprecated = true then
          Except.error (Err.validateCategorySpecError
            ("Deprecated CategorySpec " ++ specID ++ " specified replacement ID " ++ r ++ " which also deprecated"))
        else checkCategoryReplacementIDs m specID rest) = Except.error e
      by_cases hdep : s.deprecated = true
      · rw [if_pos hdep]
        exact ⟨_, rfl⟩
      · rw [if_neg hdep]
        apply ih
        obtain ⟨rid, hmem, hcond⟩ := h
        rcases List.mem_cons.mp hmem with heq | hmemr
        · subst heq
          rcases hcond with hnone | ⟨s2, hs2, hs2dep⟩
          · rw [hl] at hnone
            exact absurd hnone (by simp)
          · rw [hl] at hs2
            have hss : s2 = s := (Option.some.inj hs2).symm
            rw [hss] at hs2dep
            exact absurd hs2dep hdep
        · exact ⟨rid, hmemr, hcond⟩

theorem validateCategorySpec_error_of_badReplacement {spec : CategorySpec}
    {m : List (String × CategorySpec)}
    (h : ∃ rid ∈ spec.replacementIDs,
      mapLookup m rid = none ∨ ∃ s, mapLookup m rid = some s ∧ s.deprecated = true) :
    ∃ e, validateCategorySpec spec m = .error e := by
  unfold validateCategorySpec
  by_cases hp : spec.purpose = ""
  · rw [if_pos hp]
    exact ⟨_, rfl⟩
  · rw [if_neg hp]
    by_cases hflag : spec.replacementIDs ≠ [] ∧ spec.deprecated = false
    · rw [if_pos hflag]
      exact ⟨_, rfl⟩
    · rw [if_neg hflag]
      exact checkCategoryReplacementIDs_error h

theorem validateCategorySpecsLoop_error {m : List (String × CategorySpec)}
    {forRules : List String} {specs : List CategorySpec} {spec : CategorySpec}
    (hmem : spec ∈ specs) (hspec : ∃ e, validateCategorySpec spec m = .error e) :
    ∃ e, validateCategorySpecsLoop m forRules specs = .error e := by
  induction specs with
  | nil => exact absurd hmem (by simp)
  | cons s rest ih =>
    unfold validateCategorySpecsLoop
    cases hv : validateCategorySpec s m with
    | error e => exact ⟨e, rfl⟩
    | ok u =>
      show ∃ e,
        (if forRules.contains s.id then validateCategorySpecsLoop m forRules rest
         else Except.error (Err.validateCategorySpecError ("no Rule has a Category ID of " ++ s.id)))
          = Except.error e
      by_cases hc : forRules.contains s.id
      · rw [if_pos hc]
        rcases List.mem_cons.mp hmem with heq | hmemr
        · subst heq
          obtain ⟨e, he⟩ := hspec
          rw [hv] at he
          exact absurd he (by simp)
        · exact ih hmemr
      · rw [if_neg hc]
        exact ⟨_, rfl⟩

theorem buildCategoryIDToCategorySpec_ok_eq {specs : List CategorySpec}
    {m : List (String × CategorySpec)}
    (h : buildCategoryIDToCategorySpec specs = .ok m) : m = specs.map (fun s => (s.id, s)) := by
  induction specs generalizing m with
  | nil =>
    unfold buildCategoryIDToCategorySpec at h
    injection h with h
    rw [← h]
    rfl
  | cons s rest ih =>
    unfold buildCategoryIDToCategorySpec at h
    by_cases hid : s.id = ""
    · rw [if_pos hid] at h
      exact absurd h (by simp)
    · rw [if_neg hid] at h
      cases hr : buildCategoryIDToCategorySpec rest with
      | error e =>
        rw [hr] at h
        exact absurd h (by simp)
      | ok m2 =>
        rw [hr] at h
        injection h with h
        rw [← h, List.map_cons, ih hr]

theorem mapLookup_mappedCat (specs : List CategorySpec) (rid : String) :
    mapLookup (specs.map (fun s => (s.id, s))) rid = specs.find? (fun s => s.id == rid) := by
  induction specs with
  | nil => rfl
  | cons s rest ih =>
    unfold mapLookup
    rw [List.map_cons, List.find?_cons, List.find?_cons]
    by_cases h : s.id == rid
    · simp only [h]
      rfl
    · simp only [h]
      exact ih

theorem find?_categorySpec_of_nodup {specs : List CategorySpec} {s : CategorySpec} {rid : String}
    (hnodup : (specs.map (fun x => x.id)).Nodup) (hmem : s ∈ specs) (hid : s.id = rid) :
    specs.find? (fun x => x.id == rid) = some s := by
  induction specs with
  | nil => exact absurd hmem (by simp)
  | cons a rest ih =>
    rw [List.map_cons, List.nodup_cons] at hnodup
    rw [List.find?_cons]
    by_cases ha : a.id == rid
    · have haid : a.id = rid := beq_iff_eq.mp ha
      simp only [ha]
      rcases List.mem_cons.mp hmem with heq | hmemr
      · rw [heq]
      · exfalso
        have : a.id ∈ rest.map (fun x => x.id) := by
          rw [haid, ← hid]
          exact List.mem_map.mpr ⟨s, hmemr, rfl⟩
        exact hnodup.1 this
    · simp only [ha]
      rcases List.mem_cons.mp hmem with heq | hmemr
      · exfalso
        rw [heq] at hid
        rw [hid] at ha
        simp at ha
      · exact ih hnodup.2 hmemr

/-- C8: rule spec collection validation fails for every rule spec with
replacement IDs while not deprecated, for every rule spec naming a
replacement ID with no corresponding rule spec, and for every rule spec
naming a deprecated rule spec as replacement; and the same three
replacement rules hold for category specs against the category namespace. -/
theorem c8_replacementValidation :
    (∀ (ruleSpecs : List RuleSpec) (categoryIDMap : List String) (spec : RuleSpec),
      spec ∈ ruleSpecs →
      ((spec.replacementIDs ≠ [] ∧ spec.deprecated = false) ∨
       (∃ rid ∈ spec.replacementIDs, ∀ s ∈ ruleSpecs, s.id ≠ rid) ∨
       (∃ rid ∈ spec.replacementIDs, ∃ s ∈ ruleSpecs, s.id = rid ∧ s.deprecated = true)) →
      ∃ e, validateRuleSpecs ruleSpecs categoryIDMap = .error e) ∧
    (∀ (categorySpecs : List CategorySpec) (ruleSpecs : List RuleSpec) (spec : CategorySpec),
      spec ∈ categorySpecs →
      ((spec.replacementIDs ≠ [] ∧ spec.deprecated = false) ∨
       (∃ rid ∈ spec.replacementIDs, ∀ s ∈ categorySpecs, s.id ≠ rid) ∨
       (∃ rid ∈ spec.replacementIDs, ∃ s ∈ categorySpecs, s.id = rid ∧ s.deprecated = true)) →
      ∃ e, validateCategorySpecs categorySpecs ruleSpecs = .error e) := by
  constructor
  · intro ruleSpecs cats spec hmem hcond
    unfold validateRuleSpecs
    cases hdup : validateNoDuplicateRuleIDs (ruleSpecs.map (fun s => s.id)) with
    | error e => exact ⟨e, rfl⟩
    | ok u =>
      cases hbuild : buildRuleIDToRuleSpec ruleSpecs with
      | error e => exact ⟨e, rfl⟩
      | ok m =>
        have hm : m = ruleSpecs.map (fun s => (s.id, s)) := buildRuleIDToRuleSpec_ok_eq hbuild
        have hnodup : (ruleSpecs.map (fun s => s.id)).Nodup := by
          apply nodup_of_validateNoDuplicateRuleIDs_ok
          cases u
          exact hdup
        apply validateRuleSpecsLoop_error hmem
        rcases hcond with h1 | h2 | h3
        · exact validateRuleSpec_error_of_flag h1.1 h1.2
        · obtain ⟨rid, hmemr, hall⟩ := h2
          apply validateRuleSpec_error_of_badReplacement
          refine ⟨rid, hmemr, Or.inl ?_⟩
          rw [hm, mapLookup_mapped, List.find?_eq_none]
          intro s hs
          simp only [beq_iff_eq]
          exact hall s hs
        · obtain ⟨rid, hmemr, s, hsmem, hsid, hsdep⟩ := h3
          apply validateRuleSpec_error_of_badReplacement
          refine ⟨rid, hmemr, Or.inr ⟨s, ?_, hsdep⟩⟩
          rw [hm, mapLookup_mapped]
          exact find?_ruleSpec_of_nodup hnodup hsmem hsid
  · intro categorySpecs ruleSpecs spec hmem hcond
    unfold validateCategorySpecs
    cases hdup : validateNoDuplicateCategoryIDs (categorySpecs.map (fun s => s.id)) with
    | error e => exact ⟨e, rfl⟩
    | ok u =>
      cases hbuild : buildCategoryIDToCategorySpec categorySpecs with
      | error e => exact ⟨e, rfl⟩
      | ok m =>
        have hm : m = categorySpecs.map (fun s => (s.id, s)) :=
          buildCategoryIDToCategorySpec_ok_eq hbuild
        have hnodup : (categorySpecs.map (fun s => s.id)).Nodup := by
          apply nodup_of_validateNoDuplicateCategoryIDs_ok
          cases u
          exact hdup
        apply validateCategorySpecsLoop_error hmem
        rcases hcond with h1 | h2 | h3
        · exact validateCategorySpec_error_of_flag h1.1 h1.2
        · obtain ⟨rid, hmemr, hall⟩ := h2
          apply validateCategorySpec_error_of_badReplacement
          refine ⟨rid, hmemr, Or.inl ?_⟩
          rw [hm, mapLookup_mappedCat, List.find?_eq_none]
          intro s hs
          simp only [beq_iff_eq]
          exact hall s hs
        · obtain ⟨rid, hmemr, s, hsmem, hsid, hsdep⟩ := h3
          apply validateCategorySpec_error_of_badReplacement
          refine ⟨rid, hmemr, Or.inr ⟨s, ?_, hsdep⟩⟩
          rw [hm, mapLookup_mappedCat]
          exact find?_categorySpec_of_nodup hnodup hsmem hsid

/-- Witness for C8 at concrete specs. -/
theorem c8_witness :
    (∃ e, validateRuleSpecs [c8badRuleSpec] [] = .error e) ∧
    (∃ e, validateCategorySpecs [c8badCategorySpec] [] = .error e) := by
  constructor
  · exact c8_replacementValidation.1 [c8badRuleSpec] [] c8badRuleSpec (by simp)
      (Or.inl (by decide))
  · exact c8_replacementValidation.2 [c8badCategorySpec] [] c8badCategorySpec (by simp)
      (Or.inl (by decide))

theorem clientListRules_hit {c : CachingClient} (hc : c.cacheRulesAndCategories = true)
    (hcase : ¬ c.cachedRules.isEmpty ∨ c.cachedRulesErr.isSome) :
    clientListRules c = (c, cachedOutcome c) := by
  unfold clientListRules
  rw [if_neg (by rw [hc]; simp), if_pos hcase]

/-- C9 (amended to the code): with the caching option, a ListRules result
that is an error or a non-empty rule list is memoized: a client whose cache
fields hold such a result answers from them, unchanged, forever (never
invalidated, never retried); a fresh cached client's first call returns the
provider's result and caches it exactly when it is an error or non-empty,
while a successful empty listing leaves the cache unpopulated, so the
provider is queried again. -/
theorem c9_cachingMemoization :
    (∀ c : CachingClient, c.cacheRulesAndCategories = true →
      (¬ c.cachedRules.isEmpty ∨ c.cachedRulesErr.isSome) →
      clientListRules c = (c, cachedOutcome c)) ∧
    (∀ c : CachingClient, c.cacheRulesAndCategories = true →
      c.cachedRules = [] → c.cachedRulesErr = none →
      (clientListRules c).2 = c.provider c.fetchCount ∧
      (∀ e, c.provider c.fetchCount = .error e →
        (clientListRules c).1.cachedRulesErr = some e ∧
        clientListRules (clientListRules c).1 = ((clientListRules c).1, c.provider c.fetchCount)) ∧
      (∀ rules, c.provider c.fetchCount = .ok rules → rules ≠ [] →
        (clientListRules c).1.cachedRules = rules ∧
        clientListRules (clientListRules c).1 = ((clientListRules c).1, c.provider c.fetchCount)) ∧
      (c.provider c.fetchCount = .ok [] →
        (clientListRules c).1.cachedRules = [] ∧ (clientListRules c).1.cachedRulesErr = none)) := by
  constructor
  · intro c hc hcase
    exact clientListRules_hit hc hcase
  · intro c hc h1 h2
    have hmiss : ¬ (¬ c.cachedRules.isEmpty ∨ c.cachedRulesErr.isSome) := by
      rw [h1, h2]
      simp
    cases hprov : c.provider c.fetchCount with
    | error e =>
      have hstep : clientListRules c =
          ({ c with fetchCount := c.fetchCount + 1, cachedRules := [],
                    cachedRulesErr := some e }, .error e) := by
        unfold clientListRules
        rw [if_neg (by rw [hc]; simp), if_neg hmiss]
        simp only [listRulesUncachedCall, hprov]
      have hs1 : (clientListRules c).1 =
          { c with fetchCount := c.fetchCount + 1, cachedRules := [],
                   cachedRulesErr := some e } := by
        rw [hstep]
      have hs2 : (clientListRules c).2 = .error e := by
        rw [hstep]
      refine ⟨?_, ?_, ?_, ?_⟩
      · exact hs2
      · intro e2 he2
        have he2e : e2 = e := (Except.error.inj he2).symm
        subst he2e
        constructor
        · rw [hs1]
        · rw [hs1]
          have hrec : ({ c with fetchCount := c.fetchCount + 1, cachedRules := [], cachedRulesErr := some e2 } : CachingClient).cacheRulesAndCategories = true := hc
          rw [clientListRules_hit hrec (Or.inr rfl)]
          rfl
      · intro rules hok hne
        exact absurd hok (by simp)
      · intro hok
        exact absurd hok (by simp)
    | ok rules =>
      have hstep : clientListRules c =
          ({ c with fetchCount := c.fetchCount + 1, cachedRules := rules,
                    cachedRulesErr := none }, .ok rules) := by
        unfold clientListRules
        rw [if_neg (by rw [hc]; simp), if_neg hmiss]
        simp only [listRulesUncachedCall, hprov]
      have hs1 : (clientListRules c).1 =
          { c with fetchCount := c.fetchCount + 1, cachedRules := rules,
                   cachedRulesErr := none } := by
        rw [hstep]
      have hs2 : (clientListRules c).2 = .ok rules := by
        rw [hstep]
      refine ⟨?_, ?_, ?_, ?_⟩
      · exact hs2
      · intro e2 he2
        exact absurd he2 (by simp)
      · intro rules2 hok2 hne
        have hre : rules2 = rules := (Except.ok.inj hok2).symm
        subst hre
        constructor
        · rw [hs1]
        · rw [hs1]
          have hrec : ({ c with fetchCount := c.fetchCount + 1, cachedRules := rules2, cachedRulesErr := none } : CachingClient).cacheRulesAndCategories = true := hc
          have hfull : ¬ ({ c with fetchCount := c.fetchCount + 1, cachedRules := rules2, cachedRulesErr := none } : CachingClient).cachedRules.isEmpty ∨ ({ c with fetchCount := c.fetchCount + 1, cachedRules := rules2, cachedRulesErr := none } : CachingClient).cachedRulesErr.isSome := by
            left
            cases rules2 with
            | nil => exact absurd rfl hne
            | cons r rest => simp
          rw [clientListRules_hit hrec hfull]
          rfl
      · intro hok
        have hre : rules = [] := Except.ok.inj hok
        subst hre
        rw [hs1]
        exact ⟨rfl, rfl⟩

/-- Counterexample for C9 as stated: after a first ListRules that
successfully returned the empty rule list, a second ListRules queries the
provider again (the fetch count reaches two) and returns a different
result, so the first result was not memoized. -/
theorem c9_counterexample :
    (clientListRules c9c0).2 = .ok [] ∧
    (clientListRules (clientListRules c9c0).1).2 = .ok [c9rule] ∧
    (clientListRules (clientListRules c9c0).1).2 ≠ (clientListRules c9c0).2 ∧
    (clientListRules (clientListRules c9c0).1).1.fetchCount = 2 := by
  refine ⟨rfl, rfl, ?_, rfl⟩
  have h1 : (clientListRules (clientListRules c9c0).1).2 = .ok [c9rule] := rfl
  have h2 : (clientListRules c9c0).2 = (.ok [] : Except Err (List Rule)) := rfl
  rw [h1, h2]
  simp

/-- Witness for C9 (amended) at concrete clients. -/
theorem c9_witness :
    clientListRules c9cachedClient = (c9cachedClient, cachedOutcome c9cachedClient) ∧
    (clientListRules c9c0).2 = c9c0.provider c9c0.fetchCount := by
  constructor
  · exact c9_cachingMemoization.1 c9cachedClient rfl (Or.inl (by decide))
  · exact (c9_cachingMemoization.2 c9c0 rfl rfl rfl).1

theorem findIdx?_ruleSpecs_none {tok : String} :
    ∀ (specs : List RuleSpec) (acc : Nat), (∀ s ∈ specs, s.id ≠ tok) →
      List.findIdx? (fun rs => rs.id == tok) specs acc = none := by
  intro specs
  induction specs with
  | nil =>
    intro acc _
    rfl
  | cons a rest ih =>
    intro acc hall
    rw [List.findIdx?_cons]
    have hna : ¬ (a.id == tok) = true := by
      simp only [beq_iff_eq]
      exact hall a (by simp)
    rw [if_neg hna]
    exact ih (acc + 1) (fun s hs => hall s (by simp [hs]))

theorem findIdx?_ruleSpecs_at :
    ∀ (specs : List RuleSpec) (k : Nat) (acc : Nat) (hk : k < specs.length),
      (specs.map (fun s => s.id)).Nodup →
      List.findIdx? (fun rs => rs.id == (specs.get ⟨k, hk⟩).id) specs acc = some (acc + k) := by
  intro specs
  induction specs with
  | nil =>
    intro k acc hk _
    exact absurd hk (by simp)
  | cons a rest ih =>
    intro k acc hk hnodup
    rw [List.map_cons, List.nodup_cons] at hnodup
    rw [List.findIdx?_cons]
    cases k with
    | zero =>
      have : ((a :: rest).get ⟨0, hk⟩) = a := rfl
      rw [this]
      rw [if_pos (by simp)]
      simp
    | succ k2 =>
      have hk2 : k2 < rest.length := by
        simp only [List.length_cons] at hk
        omega
      have hget : ((a :: rest).get ⟨k2 + 1, hk⟩) = rest.get ⟨k2, hk2⟩ := rfl
      rw [hget]
      have hna : ¬ (a.id == (rest.get ⟨k2, hk2⟩).id) = true := by
        simp only [beq_iff_eq]
        intro heq
        apply hnodup.1
        rw [heq]
        exact List.mem_map.mpr ⟨rest.get ⟨k2, hk2⟩, List.get_mem rest k2 hk2, rfl⟩
      rw [if_neg hna, ih k2 (acc + 1) hk2 hnodup.2]
      congr 1
      omega

theorem ruleIDAtIndex_mem {h : CheckServiceHandler} {k : Nat} (hk : k < h.ruleSpecs.length) :
    ruleIDAtIndex h k = (h.ruleSpecs.get ⟨k, hk⟩).id ∧
    ruleIDAtIndex h k ∈ h.ruleSpecs.map (fun s => s.id) := by
  have hget : h.ruleSpecs[k]? = some (h.ruleSpecs.get ⟨k, hk⟩) := by
    rw [List.getElem?_eq_getElem hk]
    rfl
  constructor
  · unfold ruleIDAtIndex
    rw [hget]
  · unfold ruleIDAtIndex
    rw [hget]
    exact List.mem_map.mpr ⟨h.ruleSpecs.get ⟨k, hk⟩, List.get_mem h.ruleSpecs k hk, rfl⟩

theorem listRulesPaginate_last (h : CheckServiceHandler) (pageSize : Int) (fuel : Nat)
    (tok : String) (specsN : List RuleSpec)
    (hg : getRuleSpecsAndNextPageToken h pageSize tok = .ok (specsN, "")) :
    listRulesPaginate h pageSize (fuel + 1) tok = .ok specsN := by
  unfold listRulesPaginate
  rw [hg]
  rfl

theorem listRulesPaginate_cont (h : CheckServiceHandler) (pageSize : Int) (fuel : Nat)
    (tok : String) (specsN : List RuleSpec) (next : String) (rest : List RuleSpec)
    (hg : getRuleSpecsAndNextPageToken h pageSize tok = .ok (specsN, next))
    (hnem : next ≠ "")
    (hrec : listRulesPaginate h pageSize fuel next = .ok rest) :
    listRulesPaginate h pageSize (fuel + 1) tok = .ok (specsN ++ rest) := by
  unfold listRulesPaginate
  rw [hg]
  show (if next = "" then Except.ok specsN
        else match listRulesPaginate h pageSize fuel next with
          | .error e => .error e
          | .ok rest2 => .ok (specsN ++ rest2)) = Except.ok (specsN ++ rest)
  rw [if_neg hnem, hrec]

theorem paginate_from_index (h : CheckServiceHandler) (pageSize : Int)
    (hnodup : (h.ruleSpecs.map (fun s => s.id)).Nodup)
    (hne : "" ∉ h.ruleSpecs.map (fun s => s.id))
    (hps : 0 ≤ pageSize) :
    ∀ (fuel k : Nat), k < h.ruleSpecs.length →
      ∀ tok : String, ((k = 0 ∧ tok = "") ∨ tok = ruleIDAtIndex h k) →
      h.ruleSpecs.length - k ≤ fuel →
      listRulesPaginate h pageSize fuel tok = .ok (h.ruleSpecs.drop k) := by
  intro fuel
  induction fuel with
  | zero =>
    intro k hk tok _ hfuel
    omega
  | succ fuel ih =>
    intro k hk tok htok hfuel
    set psN := (if pageSize = 0 then (defaultPageSize : Int) else pageSize).toNat with hpsdef
    have hpsN : 1 ≤ psN := by
      rw [hpsdef]
      by_cases h0 : pageSize = 0
      · rw [if_pos h0]
        simp [defaultPageSize]
      · rw [if_neg h0]
        omega
    have hidx : (if tok = "" then some 0 else ruleIDToIndex h tok) = some k := by
      rcases htok with ⟨hk0, htok0⟩ | htokid
      · rw [if_pos htok0, hk0]
      · have hmem := (ruleIDAtIndex_mem hk).2
        have htokne : tok ≠ "" := by
          rw [htokid]
          intro habs
          rw [habs] at hmem
          exact hne hmem
        rw [if_neg htokne, htokid, (ruleIDAtIndex_mem hk).1]
        unfold ruleIDToIndex
        have := findIdx?_ruleSpecs_at h.ruleSpecs k 0 hk hnodup
        rw [this]
        congr 1
        omega
    have hg : getRuleSpecsAndNextPageToken h pageSize tok =
        .ok ((h.ruleSpecs.drop k).take psN,
          if k + ((h.ruleSpecs.drop k).take psN).length < h.ruleSpecs.length
          then ruleIDAtIndex h (k + ((h.ruleSpecs.drop k).take psN).length)
          else "") := by
      unfold getRuleSpecsAndNextPageToken
      rw [hidx]
    have hlen1 : ((h.ruleSpecs.drop k).take psN).length = min psN (h.ruleSpecs.length - k) := by
      rw [List.length_take, List.length_drop]
    by_cases hnext : k + ((h.ruleSpecs.drop k).take psN).length < h.ruleSpecs.length
    · rw [if_pos hnext] at hg
      have hnexttok := ruleIDAtIndex_mem hnext
      have hnexttokne : ruleIDAtIndex h (k + ((h.ruleSpecs.drop k).take psN).length) ≠ "" := by
        intro habs
        rw [habs] at hnexttok
        exact hne hnexttok.2
      have hrec := ih (k + ((h.ruleSpecs.drop k).take psN).length) hnext
        (ruleIDAtIndex h (k + ((h.ruleSpecs.drop k).take psN).length)) (Or.inr rfl) (by omega)
      have hall := listRulesPaginate_cont h pageSize fuel tok _ _ _ hg hnexttokne hrec
      rw [hall]
      have hmin : ((h.ruleSpecs.drop k).take psN).length = psN := by
        rw [hlen1]
        omega
      rw [hmin]
      have hdd : List.drop psN (List.drop k h.ruleSpecs) = List.drop (k + psN) h.ruleSpecs := by
        rw [List.drop_drop]
      rw [← hdd, List.take_append_drop]
    · rw [if_neg hnext] at hg
      have htake : (h.ruleSpecs.drop k).take psN = h.ruleSpecs.drop k := by
        apply List.take_of_length_le
        rw [List.length_drop]
        rw [hlen1] at hnext
        omega
      have hall := listRulesPaginate_last h pageSize fuel tok _ hg
      rw [hall, htake]

/-- C4 (amended to the code): for a handler over validated rule specs
(unique, non-empty IDs) and any non-negative page size P (P = 0 treated as
the default 250), feeding back each returned next page token from the empty
token until it is empty yields exactly the handler's rule specs, each
exactly once, in the handler's construction order (which is ID order
exactly when the specs are registered in ID order); an unknown non-empty
page token fails with InvalidArgument; and each returned next page token is
the ID of the first unreturned rule. -/
theorem c4_paginationRoundTrip (h : CheckServiceHandler) (pageSize : Int)
    (hnodup : (h.ruleSpecs.map (fun s => s.id)).Nodup)
    (hne : "" ∉ h.ruleSpecs.map (fun s => s.id))
    (hps : 0 ≤ pageSize) :
    listRulesPaginate h pageSize (h.ruleSpecs.length + 1) "" = .ok h.ruleSpecs ∧
    (∀ tok, tok ≠ "" → tok ∉ h.ruleSpecs.map (fun s => s.id) →
      getRuleSpecsAndNextPageToken h pageSize tok =
        .error (.invalidArgument ("unknown page token: " ++ tok))) ∧
    (∀ k, k < h.ruleSpecs.length →
      getRuleSpecsAndNextPageToken h pageSize (ruleIDAtIndex h k) =
        .ok ((h.ruleSpecs.drop k).take (if pageSize = 0 then (defaultPageSize : Int) else pageSize).toNat,
          if k + ((h.ruleSpecs.drop k).take (if pageSize = 0 then (defaultPageSize : Int) else pageSize).toNat).length < h.ruleSpecs.length
          then ruleIDAtIndex h (k + ((h.ruleSpecs.drop k).take (if pageSize = 0 then (defaultPageSize : Int) else pageSize).toNat).length)
          else "")) := by
  refine ⟨?_, ?_, ?_⟩
  · cases hsp : h.ruleSpecs with
    | nil =>
      have hg : getRuleSpecsAndNextPageToken h pageSize "" = .ok ([], "") := by
        unfold getRuleSpecsAndNextPageToken
        rw [if_pos rfl]
        simp [hsp]
      unfold listRulesPaginate
      rw [hg]
      rfl
    | cons s rest =>
      have hlen : 0 < h.ruleSpecs.length := by
        rw [hsp]
        simp
      have := paginate_from_index h pageSize hnodup hne hps (h.ruleSpecs.length + 1) 0 hlen ""
        (Or.inl ⟨rfl, rfl⟩) (by omega)
      rw [List.drop_zero] at this
      rw [← hsp]
      exact this
  · intro tok htokne htoknotmem
    unfold getRuleSpecsAndNextPageToken
    have hnone : ruleIDToIndex h tok = none := by
      unfold ruleIDToIndex
      apply findIdx?_ruleSpecs_none
      intro s hs habs
      exact htoknotmem (List.mem_map.mpr ⟨s, hs, habs⟩)
    rw [if_neg htokne, hnone]
  · intro k hk
    have hidx : (if ruleIDAtIndex h k = "" then some 0 else ruleIDToIndex h (ruleIDAtIndex h k)) = some k := by
      have hmem := (ruleIDAtIndex_mem hk).2
      have htokne : ruleIDAtIndex h k ≠ "" := by
        intro habs
        rw [habs] at hmem
        exact hne hmem
      rw [if_neg htokne, (ruleIDAtIndex_mem hk).1]
      unfold ruleIDToIndex
      have := findIdx?_ruleSpecs_at h.ruleSpecs k 0 hk hnodup
      rw [this]
      congr 1
      omega
    unfold getRuleSpecsAndNextPageToken
    rw [hidx]

/-- Counterexample for C4 as stated: over a handler registered in the order
BBBB, AAAA, the pagination round trip yields the rules in that construction
order, which is not ID order. -/
theorem c4_counterexample :
    listRulesPaginate c4handler 250 3 "" = .ok [c4specB, c4specA] ∧
    ¬ List.Sorted (fun a b : String => a ≤ b) ([c4specB, c4specA].map (fun s => s.id)) := by
  constructor
  · rfl
  · intro hsorted
    simp only [List.map_cons, List.map_nil, c4specB, c4specA] at hsorted
    rw [List.sorted_cons] at hsorted
    have h1 : ("BBBB" : String) ≤ "AAAA" := hsorted.1 "AAAA" (by simp)
    rw [String.le_iff_toList_le] at h1
    revert h1
    decide

/-- Witness for C4 (amended) at a concrete handler. -/
theorem c4_witness :
    listRulesPaginate c4handler 250 (c4handler.ruleSpecs.length + 1) "" = .ok c4handler.ruleSpecs ∧
    getRuleSpecsAndNextPageToken c4handler 250 "ZZZZ" =
      .error (.invalidArgument ("unknown page token: " ++ "ZZZZ")) := by
  have h := c4_paginationRoundTrip c4handler 250 (by decide) (by decide) (by decide)
  exact ⟨h.1, h.2.1 "ZZZZ" (by decide) (by decide)⟩

/-- C1 evaluated on the code: with an explicit filter naming only delegate
A's rule AAAA, the multi-client Check still calls delegate B — B's
intersected rule-ID list is empty, so B receives a request with an empty
filter, which by the Request contract runs all of B's rules — and the
returned response contains B's annotation for rule BBBB, which the claim
says cannot appear. -/
theorem c1_delegateNotSkipped :
    multiClientCheck [c1clientA, c1clientB] c1request = .ok (newResponse [c1annA, c1annB]) ∧
    c1annB ∈ (newResponse [c1annA, c1annB]).annotations ∧
    c1annB.ruleID = "BBBB" ∧
    c1request.ruleIDs = ["AAAA"] := by
  refine ⟨rfl, ?_, rfl, rfl⟩
  show c1annB ∈ List.insertionSort annotationLE [c1annA, c1annB]
  exact (List.perm_insertionSort annotationLE [c1annA, c1annB]).mem_iff.mpr (by simp)

end Bufplugin
